import Mathlib

/-!
Tnvme: boundary queue identifiers and controller register compliance.

A shallow embedding of

* `GrpAdminDeleteIOSQCmd/invalidQID_r10b.cpp` (`InvalidQID_r10b::GetIllegalQIDs`), and
* `GrpCtrlRegisters/allCtrlRegs_r10b.cpp` (`AllCtrlRegs_r10b::ReportOffendingBitPos`,
  `ValidateCtlRegisterROAttribute`, `ValidateDefaultValues`, `ValidateROBitsAfterWriting`),

followed by theorems about them.  `uint32_t` and `uint64_t` values are natural numbers,
reduced modulo `2^32 = 4294967296` and `2^64 = 18446744073709551616` wherever the C++
arithmetic can wrap.
-/

namespace GrpAdminDeleteIOSQCmd

/-- The `for` loop of `GetIllegalQIDs` (lines 179-186).  `MAX_IOQ_ID` is a macro of a header
that is not part of the sources at hand, so it is the parameter `MAX_IOQ_ID`; `qId` is the
`uint32_t` loop variable and `illegalQIDs` the list built so far.  The C++ loop has no
iteration bound; the first argument is the number of guard evaluations that are allowed,
and `none` means that the loop is still running when they are used up. -/
def doublingLoop (MAX_IOQ_ID : Nat) : Nat → Nat → List Nat → Option (List Nat)
  | 0, _, _ => none
  | fuel + 1, qId, illegalQIDs =>
    if qId ≤ MAX_IOQ_ID + 1 then
      doublingLoop MAX_IOQ_ID fuel (qId * 2 % 4294967296)
        (if qId < MAX_IOQ_ID then
          illegalQIDs ++ [(qId + 4294967295) % 4294967296, qId, (qId + 1) % 4294967296]
        else illegalQIDs)
    else some illegalQIDs

/-- The member `std::list<uint32_t>::remove(value)`: drops every element equal to
`value`. -/
def listRemove (value : Nat) (l : List Nat) : List Nat :=
  l.filter (fun x => x != value)

/-- The function `InvalidQID_r10b::GetIllegalQIDs(maxQIdsSupported)` (lines 175-194), with
the loop run for at most `fuel` guard evaluations.  `MAX_IOQ_ID - 1` is converted to
`uint32_t` as the argument of `remove` and `push_back`. -/
def GetIllegalQIDs (MAX_IOQ_ID fuel maxQIdsSupported : Nat) : Option (List Nat) :=
  match doublingLoop MAX_IOQ_ID fuel ((maxQIdsSupported + 1) % 4294967296) [] with
  | none => none
  | some illegalQIDs =>
    if maxQIdsSupported < MAX_IOQ_ID then
      some (listRemove MAX_IOQ_ID
              (listRemove ((MAX_IOQ_ID + 4294967295) % 4294967296) illegalQIDs)
            ++ [(MAX_IOQ_ID + 4294967295) % 4294967296, MAX_IOQ_ID])
    else some illegalQIDs

end GrpAdminDeleteIOSQCmd

namespace AllCtrlRegs

/-- The constant `INT_MAX` of `<climits>` for a 32-bit `int`. -/
def INT_MAX : Nat := 2147483647

/-- The `uint64_t` value stored by `bitMask = (1 << i)` (line 120).  The literal `1` is an
`int`, so the shift is a 32-bit signed one and its result is widened afterwards: for
`i < 31` it is `2^i`; for `i = 31` it is `INT_MIN`, whose conversion to `uint64_t`
sign-extends to `0xFFFFFFFF80000000`; for `i ≥ 32` the shift count is not less than the
width of `int` and C++ gives the expression no value, so the value is whatever
`wideShift i` says. -/
def bitMask (wideShift : Nat → Nat) (i : Nat) : Nat :=
  if i < 31 then 2 ^ i
  else if i = 31 then 18446744071562067968
  else wideShift i % 18446744073709551616

/-- The `for` loop of `ReportOffendingBitPos` (lines 119-123) with `n` iterations left
and loop variable `i`; falling out of the loop gives `INT_MAX` (line 124). -/
def scanBits (wideShift : Nat → Nat) (val expectedVal : Nat) : Nat → Nat → Nat
  | 0, _ => INT_MAX
  | n + 1, i =>
    if (val &&& bitMask wideShift i) != (expectedVal &&& bitMask wideShift i) then i
    else scanBits wideShift val expectedVal n (i + 1)

/-- The function `AllCtrlRegs_r10b::ReportOffendingBitPos(val, expectedVal)`
(lines 114-125): `i` runs from `0` while `i < sizeof(uint64_t) * 8 = 64`. -/
def ReportOffendingBitPos (wideShift : Nat → Nat) (val expectedVal : Nat) : Nat :=
  scanBits wideShift val expectedVal 64 0

/-- Modelled from the spec: the register descriptor type `CtlSpcType`, whose declaration
is in a header outside the sources at hand (the `RegisterDescriptor` of the
specification).  `maskRO`, `impSpec` and `dfltValue` are 64-bit values. -/
structure CtlSpcType where
  specRev : Nat
  offset : Nat
  size : Nat
  maskRO : Nat
  impSpec : Nat
  dfltValue : Nat
  desc : String

/-- Modelled from the spec: what the headers outside the sources at hand declare for the
register set: the enumerators `CTLSPC_FENCE`, `CTLSPC_RES1`, `CTLSPC_RES2`, `CTLSPC_RES3`
of `CtlSpc`, the macro `MAX_SUPPORTED_REG_SIZE` (the native access width in bytes) and the
table returned by `gRegisters->GetCtlMetrics()` (the `RegisterMap` of the
specification). -/
structure RegDefs where
  CTLSPC_FENCE : Nat
  CTLSPC_RES1 : Nat
  CTLSPC_RES2 : Nat
  CTLSPC_RES3 : Nat
  MAX_SUPPORTED_REG_SIZE : Nat
  ctlMetrics : Nat → CtlSpcType

/-- Modelled from the spec: the register transport behind `gRegisters` (the
`RegisterTransport` of the specification) over a device state `σ`.  `Read reg` is
`Read(CtlSpc reg, uint64_t &value)`, `ReadBar01 len offset` is
`Read(NVMEIO_BAR01, len, offset, buf)` and `Write reg value` is
`Write(CtlSpc reg, uint64_t value)`; a read that returns `false` is `none`. -/
structure Registers (σ : Type) where
  Read : Nat → σ → Option Nat × σ
  ReadBar01 : Nat → Nat → σ → Option Nat × σ
  Write : Nat → Nat → σ → Bool × σ

/-- A line written by `LOG_ERR("%s RO bit #%d has incorrect value", desc, bitPos)`. -/
structure LogErr where
  desc : String
  bitPos : Nat
deriving DecidableEq, Repr

/-- What the validator throws: always a bare `exception()`. -/
inductive Thrown where
  | exception
deriving DecidableEq, Repr

/-- The effect of running a piece of the validator: the device state it leaves, the
`LOG_ERR` lines it wrote (`LOG_NRM` lines are not modelled) and whether it returned or
threw. -/
structure Outcome (σ : Type) where
  dev : σ
  errLog : List LogErr
  result : Except Thrown Unit

/-- The complement `~x` of a `uint64_t`. -/
def not64 (x : Nat) : Nat := 18446744073709551615 - x % 18446744073709551616

/-- Sequencing of two statements: an exception of the first one propagates. -/
def Outcome.andThen {σ : Type} (o : Outcome σ) (next : σ → Outcome σ) : Outcome σ :=
  match o.result with
  | .error _ => o
  | .ok _ => ⟨(next o.dev).dev, o.errLog ++ (next o.dev).errLog, (next o.dev).result⟩

/-- The masking and comparison that `ValidateCtlRegisterROAttribute` applies to a value it
has read (lines 146-159 and, identically, 167-179); `some` is the `LOG_ERR` line written
before `throw exception()`, `none` means that the value passes. -/
def checkROValue (wideShift : Nat → Nat) (d : CtlSpcType) (value : Nat) : Option LogErr :=
  if ((value &&& not64 d.impSpec) &&& d.maskRO) % 18446744073709551616
      != (d.dfltValue &&& d.maskRO) % 18446744073709551616 then
    some ⟨d.desc, ReportOffendingBitPos wideShift
      (((value &&& not64 d.impSpec) &&& d.maskRO) % 18446744073709551616)
      ((d.dfltValue &&& d.maskRO) % 18446744073709551616)⟩
  else none

/-- The chunk loop of `ValidateCtlRegisterROAttribute` (lines 136-161) over the remaining
chunk indices `k`: each chunk of `sizeof(value) = 8` bytes is read at
`offset + k * 8` and checked against the descriptor. -/
def wideChunks {σ : Type} (wideShift : Nat → Nat) (R : Registers σ) (d : CtlSpcType) :
    List Nat → σ → Outcome σ
  | [], s => ⟨s, [], .ok ()⟩
  | k :: ks, s =>
    match R.ReadBar01 8 (d.offset + k * 8) s with
    | (none, s1) => ⟨s1, [], .error .exception⟩
    | (some value, s1) =>
      match checkROValue wideShift d (value % 18446744073709551616) with
      | some e => ⟨s1, [e], .error .exception⟩
      | none => wideChunks wideShift R d ks s1

/-- The function `AllCtrlRegs_r10b::ValidateCtlRegisterROAttribute(reg)` (lines 128-181).
The chunk loop `for (k = 0; k * 8 < size; k++)` runs over `k = 0 .. (size + 7) / 8 - 1`. -/
def ValidateCtlRegisterROAttribute {σ : Type} (wideShift : Nat → Nat) (G : RegDefs)
    (R : Registers σ) (reg : Nat) (s : σ) : Outcome σ :=
  if (G.ctlMetrics reg).size > G.MAX_SUPPORTED_REG_SIZE then
    wideChunks wideShift R (G.ctlMetrics reg) (List.range (((G.ctlMetrics reg).size + 7) / 8)) s
  else
    match R.Read reg s with
    | (none, s1) => ⟨s1, [], .error .exception⟩
    | (some value, s1) =>
      match checkROValue wideShift (G.ctlMetrics reg) (value % 18446744073709551616) with
      | some e => ⟨s1, [e], .error .exception⟩
      | none => ⟨s1, [], .ok ()⟩

/-- The loop of `AllCtrlRegs_r10b::ValidateDefaultValues` (lines 71-75) over the remaining
register indices `j`; `mSpecRev` is the revision the test was constructed with. -/
def defaultValuesLoop {σ : Type} (wideShift : Nat → Nat) (G : RegDefs) (R : Registers σ)
    (mSpecRev : Nat) : List Nat → σ → Outcome σ
  | [], s => ⟨s, [], .ok ()⟩
  | j :: js, s =>
    if (G.ctlMetrics j).specRev != mSpecRev then
      defaultValuesLoop wideShift G R mSpecRev js s
    else
      (ValidateCtlRegisterROAttribute wideShift G R j s).andThen
        (defaultValuesLoop wideShift G R mSpecRev js)

/-- The function `AllCtrlRegs_r10b::ValidateDefaultValues()` (lines 63-76). -/
def ValidateDefaultValues {σ : Type} (wideShift : Nat → Nat) (G : RegDefs) (R : Registers σ)
    (mSpecRev : Nat) (s : σ) : Outcome σ :=
  defaultValuesLoop wideShift G R mSpecRev (List.range G.CTLSPC_FENCE) s

/-- The two probes of `ValidateROBitsAfterWriting` for one register `j` (lines 97-109). -/
def probeRegister {σ : Type} (wideShift : Nat → Nat) (G : RegDefs) (R : Registers σ)
    (j : Nat) (s : σ) : Outcome σ :=
  match R.Read j s with
  | (none, s1) => ⟨s1, [], .error .exception⟩
  | (some origValue, s1) =>
    match R.Write j ((origValue % 18446744073709551616) ||| (G.ctlMetrics j).maskRO) s1 with
    | (false, s2) => ⟨s2, [], .error .exception⟩
    | (true, s2) =>
      (ValidateCtlRegisterROAttribute wideShift G R j s2).andThen fun s3 =>
        match R.Write j ((origValue % 18446744073709551616) &&& not64 (G.ctlMetrics j).maskRO)
            s3 with
        | (false, s4) => ⟨s4, [], .error .exception⟩
        | (true, s4) => ValidateCtlRegisterROAttribute wideShift G R j s4

/-- The loop of `AllCtrlRegs_r10b::ValidateROBitsAfterWriting` (lines 89-110) over the
remaining register indices `j`. -/
def roBitsLoop {σ : Type} (wideShift : Nat → Nat) (G : RegDefs) (R : Registers σ)
    (mSpecRev : Nat) : List Nat → σ → Outcome σ
  | [], s => ⟨s, [], .ok ()⟩
  | j :: js, s =>
    if (G.ctlMetrics j).specRev != mSpecRev then
      roBitsLoop wideShift G R mSpecRev js s
    else if j == G.CTLSPC_RES1 || j == G.CTLSPC_RES2 || j == G.CTLSPC_RES3 then
      roBitsLoop wideShift G R mSpecRev js s
    else
      (probeRegister wideShift G R j s).andThen (roBitsLoop wideShift G R mSpecRev js)

/-- The function `AllCtrlRegs_r10b::ValidateROBitsAfterWriting()` (lines 79-111). -/
def ValidateROBitsAfterWriting {σ : Type} (wideShift : Nat → Nat) (G : RegDefs)
    (R : Registers σ) (mSpecRev : Nat) (s : σ) : Outcome σ :=
  roBitsLoop wideShift G R mSpecRev (List.range G.CTLSPC_FENCE) s

/-- The function `AllCtrlRegs_r10b::RunCoreTest()` (lines 49-60). -/
def RunCoreTest {σ : Type} (wideShift : Nat → Nat) (G : RegDefs) (R : Registers σ)
    (mSpecRev : Nat) (s : σ) : Outcome σ :=
  (ValidateDefaultValues wideShift G R mSpecRev s).andThen
    (ValidateROBitsAfterWriting wideShift G R mSpecRev)

/-- A transport whose reads all succeed with the value `v` and whose writes succeed and
change nothing. -/
def constRegisters (v : Nat) : Registers Unit where
  Read := fun _ s => (some v, s)
  ReadBar01 := fun _ _ s => (some v, s)
  Write := fun _ _ s => (true, s)

/-- A register table with one 8-byte register at index `0`, whose low 32 bits are
read-only with default `0x00000200` and whose bits 16-23 are implementation specific. -/
def sampleDefs : RegDefs where
  CTLSPC_FENCE := 1
  CTLSPC_RES1 := 7
  CTLSPC_RES2 := 8
  CTLSPC_RES3 := 9
  MAX_SUPPORTED_REG_SIZE := 8
  ctlMetrics := fun _ => ⟨1, 0, 8, 4294967295, 16711680, 512, "CAP"⟩

/-- One call of the register transport together with what it returned: the value of a
read (`none` when the read returned `false`) or the success flag of a write. -/
inductive Op where
  | read (reg : Nat) (res : Option Nat)
  | readBar01 (len : Nat) (offset : Nat) (res : Option Nat)
  | write (reg : Nat) (value : Nat) (ok : Bool)
deriving DecidableEq, Repr

/-- Whether the recorded call returned `false`. -/
def Op.failed : Op → Bool
  | .read _ res => res.isNone
  | .readBar01 _ _ res => res.isNone
  | .write _ _ ok => !ok

/-- Whether the recorded call is a write. -/
def Op.isWrite : Op → Bool
  | .write _ _ _ => true
  | _ => false

/-- The transport `R` with a journal: every call is passed on to `R` and appended, with its
result, to the list of calls made so far. -/
def traced {σ : Type} (R : Registers σ) : Registers (σ × List Op) where
  Read := fun reg st =>
    ((R.Read reg st.1).1, ((R.Read reg st.1).2, st.2 ++ [Op.read reg (R.Read reg st.1).1]))
  ReadBar01 := fun len offset st =>
    ((R.ReadBar01 len offset st.1).1,
      ((R.ReadBar01 len offset st.1).2,
        st.2 ++ [Op.readBar01 len offset (R.ReadBar01 len offset st.1).1]))
  Write := fun reg value st =>
    ((R.Write reg value st.1).1,
      ((R.Write reg value st.1).2, st.2 ++ [Op.write reg value (R.Write reg value st.1).1]))

/-- A compliant device with native-width registers only: the state is the register file,
`Read` returns the stored value, and `Write(reg, v)` stores
`(old & maskRO) | (v & ~maskRO)`, so that read-only bits keep their value.  Raw reads of
the BAR are not offered. -/
def compliantDevice (G : RegDefs) : Registers (Nat → Nat) where
  Read := fun reg file => (some (file reg), file)
  ReadBar01 := fun _ _ file => (none, file)
  Write := fun reg value file =>
    (true, Function.update file reg
      ((file reg &&& (G.ctlMetrics reg).maskRO) ||| (value &&& not64 (G.ctlMetrics reg).maskRO)))

/-- A device that stores whatever is written, read-only bits included. -/
def writableDevice : Registers (Nat → Nat) where
  Read := fun reg file => (some (file reg), file)
  ReadBar01 := fun _ _ file => (none, file)
  Write := fun reg value file => (true, Function.update file reg value)

/-- A transport on which every call returns `false`. -/
def failRegisters : Registers Unit where
  Read := fun _ s => (none, s)
  ReadBar01 := fun _ _ s => (none, s)
  Write := fun _ _ s => (false, s)

/-- A read-only view of the BAR: the 8 bytes at `offset` read as `mem offset`; register
reads and writes return `false`. -/
def chunkRegisters (mem : Nat → Nat) : Registers Unit where
  Read := fun _ s => (none, s)
  ReadBar01 := fun _ offset s => (some (mem offset), s)
  Write := fun _ _ s => (false, s)

/-- The `k`-th 64-bit slice of a value: its bits `64k .. 64k + 63`. -/
def slice64 (k x : Nat) : Nat := x / 2 ^ (64 * k) % 18446744073709551616

/-- The chunk comparison in the words of the specification: chunk `k` with value `v` is
masked and compared against the `k`-th slices of `impSpec`, `maskRO` and `dfltValue`. -/
def chunkMatchesSlice (d : CtlSpcType) (k v : Nat) : Bool :=
  ((v &&& not64 (slice64 k d.impSpec)) &&& slice64 k d.maskRO)
    == (slice64 k d.dfltValue &&& slice64 k d.maskRO)

/-- A register table with one 8-byte register whose bit `0` is read-only, implementation
specific and `1` by default. -/
def overlapDefs : RegDefs where
  CTLSPC_FENCE := 1
  CTLSPC_RES1 := 7
  CTLSPC_RES2 := 8
  CTLSPC_RES3 := 9
  MAX_SUPPORTED_REG_SIZE := 8
  ctlMetrics := fun _ => ⟨1, 0, 8, 1, 1, 1, "OVL"⟩

/-- A register table with one 16-byte register at offset `0`, whose low byte is read-only
with default `0x01`. -/
def wideDefs : RegDefs where
  CTLSPC_FENCE := 1
  CTLSPC_RES1 := 7
  CTLSPC_RES2 := 8
  CTLSPC_RES3 := 9
  MAX_SUPPORTED_REG_SIZE := 8
  ctlMetrics := fun _ => ⟨1, 0, 16, 255, 0, 1, "WIDE"⟩

/-- A register table with two 8-byte registers of revision `1`, whose low 32 bits are
read-only with default `0x00000200`; register `1` is the reserved `CTLSPC_RES1`. -/
def pairDefs : RegDefs where
  CTLSPC_FENCE := 2
  CTLSPC_RES1 := 1
  CTLSPC_RES2 := 8
  CTLSPC_RES3 := 9
  MAX_SUPPORTED_REG_SIZE := 8
  ctlMetrics := fun _ => ⟨1, 0, 8, 4294967295, 16711680, 512, "REG"⟩

/-- The device state in which the chunk loop of `ValidateCtlRegisterROAttribute` reads
chunk `k`: the state left by the reads of the chunks `0 .. k - 1`, started in `s`. -/
def stateAfterChunks {σ : Type} (R : Registers σ) (d : CtlSpcType) : Nat → σ → σ
  | 0, s => s
  | k + 1, s => (R.ReadBar01 8 (d.offset + k * 8) (stateAfterChunks R d k s)).2

/-- The journal `after` continues the journal `before` with calls that all satisfy `P`. -/
def OnlyAppends (P : Op → Prop) (before after : List Op) : Prop :=
  ∃ added, after = before ++ added ∧ ∀ op ∈ added, P op

/-- A failed run is explained by the journal and the error log: the last transport call
either returned `false`, and then nothing was logged, or it was a successful read, and
then exactly one `LOG_ERR` line was written. -/
def FailureExplained {σ : Type} (o : Outcome (σ × List Op)) : Prop :=
  ∃ op, o.dev.2.getLast? = some op ∧
    ((op.failed = true ∧ o.errLog = []) ∨
     (op.failed = false ∧ op.isWrite = false ∧ ∃ e, o.errLog = [e]))

/-- A transport whose reads succeed with the value `v` and whose writes return `false`. -/
def writeFailRegisters (v : Nat) : Registers Unit where
  Read := fun _ s => (some v, s)
  ReadBar01 := fun _ _ s => (some v, s)
  Write := fun _ _ s => (false, s)

/-- A run is accounted for: if it returned, it logged nothing, and if it threw, the
failure is explained by the journal and the error log. -/
def Accounted {σ : Type} (o : Outcome (σ × List Op)) : Prop :=
  (o.result = .ok () → o.errLog = []) ∧ (o.result = .error .exception → FailureExplained o)

/-- Whether the recorded call is a read or a write of register `j` (raw reads of the BAR
name no register). -/
def Op.touches (j : Nat) : Op → Bool
  | .read reg _ => reg == j
  | .readBar01 _ _ _ => false
  | .write reg _ _ => reg == j

end AllCtrlRegs

namespace GrpAdminDeleteIOSQCmd

/-! ## The doubling loop -/

/-- Once `qId` is `0` the guard holds for ever: the loop never leaves. -/
theorem doublingLoop_zero (M : Nat) :
    ∀ (fuel : Nat) (ids : List Nat), doublingLoop M fuel 0 ids = none := by
  intro fuel
  induction fuel with
  | zero => intro ids; rfl
  | succ n ih =>
    intro ids
    have h0 : (0 : Nat) ≤ M + 1 := Nat.zero_le _
    simp only [doublingLoop, h0, if_true, Nat.zero_mul, Nat.zero_mod]
    exact ih _

/-- One iteration of the loop when the guard holds and nothing wraps. -/
theorem doublingLoop_step (M fuel q : Nat) (ids : List Nat) (hM : M ≤ 65535)
    (hq : 1 ≤ q) (hg : q ≤ M + 1) :
    doublingLoop M (fuel + 1) q ids =
      doublingLoop M fuel (q * 2) (if q < M then ids ++ [q - 1, q, q + 1] else ids) := by
  have e1 : q * 2 % 4294967296 = q * 2 := by omega
  have e2 : (q + 4294967295) % 4294967296 = q - 1 := by omega
  have e3 : (q + 1) % 4294967296 = q + 1 := by omega
  simp only [doublingLoop, hg, if_true, e1, e2, e3]

/-- The loop exit. -/
theorem doublingLoop_exit (M fuel q : Nat) (ids : List Nat) (hg : ¬ q ≤ M + 1) :
    doublingLoop M (fuel + 1) q ids = some ids := by
  simp only [doublingLoop, hg, if_false]

/-- From a positive `qId` the loop leaves after at most `MAX_IOQ_ID + 2 - qId` further
guard evaluations. -/
theorem doublingLoop_terminates (M : Nat) (hM : M ≤ 65535) :
    ∀ (n q : Nat) (ids : List Nat), 1 ≤ q → M + 2 - q ≤ n →
      ∃ l, doublingLoop M (n + 1) q ids = some l := by
  intro n
  induction n with
  | zero =>
    intro q ids _ hn
    exact ⟨ids, doublingLoop_exit M 0 q ids (by omega)⟩
  | succ n ih =>
    intro q ids hq hn
    by_cases hg : q ≤ M + 1
    · rw [doublingLoop_step M (n + 1) q ids hM hq hg]
      exact ih (q * 2) _ (by omega) (by omega)
    · exact ⟨ids, doublingLoop_exit M (n + 1) q ids hg⟩

/-- What the loop returns: the list it started from, and the three values around every
doubling `qId * 2^k` of the start value that is below `MAX_IOQ_ID`. -/
theorem doublingLoop_mem (M : Nat) (hM : M ≤ 65535) :
    ∀ (fuel q : Nat) (ids l : List Nat), 1 ≤ q → doublingLoop M fuel q ids = some l →
      ∀ x, x ∈ l ↔
        (x ∈ ids ∨ ∃ k, q * 2 ^ k < M ∧ (x + 1 = q * 2 ^ k ∨ x = q * 2 ^ k ∨ x = q * 2 ^ k + 1)) := by
  intro fuel
  induction fuel with
  | zero => intro q ids l _ h; simp [doublingLoop] at h
  | succ n ih =>
    intro q ids l hq h x
    have hpow : ∀ k, q ≤ q * 2 ^ k := fun k => Nat.le_mul_of_pos_right q (Nat.two_pow_pos k)
    by_cases hg : q ≤ M + 1
    · rw [doublingLoop_step M n q ids hM hq hg] at h
      have hx := ih (q * 2) _ l (by omega) h x
      rw [hx]
      have shift : ∀ k, q * 2 * 2 ^ k = q * 2 ^ (k + 1) := by
        intro k; rw [pow_succ]; ring
      by_cases hlt : q < M
      · simp only [hlt, if_true, List.mem_append, List.mem_cons, List.mem_singleton,
          List.not_mem_nil, or_false]
        constructor
        · rintro (h1 | ⟨k, hk, hk2⟩)
          · rcases h1 with h1 | h1
            · exact Or.inl h1
            · refine Or.inr ⟨0, by simpa using hlt, ?_⟩
              simp only [pow_zero, Nat.mul_one]
              omega
          · exact Or.inr ⟨k + 1, by rw [← shift]; exact hk, by rw [← shift]; exact hk2⟩
        · rintro (h1 | ⟨k, hk, hk2⟩)
          · exact Or.inl (Or.inl h1)
          · cases k with
            | zero =>
              simp only [pow_zero, Nat.mul_one] at hk2
              exact Or.inl (Or.inr (by omega))
            | succ k =>
              exact Or.inr ⟨k, by rw [shift]; exact hk, by rw [shift]; exact hk2⟩
      · simp only [hlt, if_false]
        constructor
        · rintro (h1 | ⟨k, hk, _⟩)
          · exact Or.inl h1
          · have := hpow (k + 1); rw [← shift] at this; omega
        · rintro (h1 | ⟨k, hk, _⟩)
          · exact Or.inl h1
          · have := hpow k; omega
    · rw [doublingLoop_exit M n q ids hg] at h
      cases h
      constructor
      · exact Or.inl
      · rintro (h1 | ⟨k, hk, _⟩)
        · exact h1
        · have := hpow k; omega

/-- From a start value of at least `3` the loop keeps a strictly increasing list strictly
increasing: the triple of `2 * qId` lies above the triple of `qId`. -/
theorem doublingLoop_sorted (M : Nat) (hM : M ≤ 65535) :
    ∀ (fuel q : Nat) (ids l : List Nat), 3 ≤ q → ids.Pairwise (fun a b => a < b) →
      (∀ x ∈ ids, x + 1 < q) → doublingLoop M fuel q ids = some l →
      l.Pairwise (fun a b => a < b) := by
  intro fuel
  induction fuel with
  | zero => intro q ids l _ _ _ h; simp [doublingLoop] at h
  | succ n ih =>
    intro q ids l hq hs hb h
    by_cases hg : q ≤ M + 1
    · rw [doublingLoop_step M n q ids hM (by omega) hg] at h
      by_cases hlt : q < M
      · simp only [hlt, if_true] at h
        refine ih (q * 2) _ l (by omega) ?_ ?_ h
        · rw [List.pairwise_append]
          refine ⟨hs, ?_, ?_⟩
          · refine List.Pairwise.cons ?_ (List.Pairwise.cons ?_ (List.pairwise_singleton _ _))
            · intro b hb0
              simp only [List.mem_cons, List.mem_singleton, List.not_mem_nil, or_false] at hb0
              rcases hb0 with rfl | rfl <;> omega
            · intro b hb0
              simp only [List.mem_singleton] at hb0
              omega
          · intro a ha b hb2
            have := hb a ha
            simp only [List.mem_cons, List.mem_singleton, List.not_mem_nil, or_false] at hb2
            rcases hb2 with rfl | rfl | rfl <;> omega
        · intro x hx
          simp only [List.mem_append, List.mem_cons, List.mem_singleton, List.not_mem_nil,
            or_false] at hx
          rcases hx with hx | rfl | rfl | rfl
          · have := hb x hx; omega
          · omega
          · omega
          · omega
      · simp only [hlt, if_false] at h
        exact ih (q * 2) ids l (by omega) hs (fun x hx => by have := hb x hx; omega) h
    · rw [doublingLoop_exit M n q ids hg] at h
      cases h
      exact hs

/-! ## The whole function -/

/-- For every argument but `0xFFFFFFFF` the function returns. -/
theorem GetIllegalQIDs_terminates (M m : Nat) (hM : M ≤ 65535) (hm : m < 4294967295) :
    ∃ fuel l, GetIllegalQIDs M fuel m = some l := by
  have e : (m + 1) % 4294967296 = m + 1 := by omega
  obtain ⟨l0, h0⟩ := doublingLoop_terminates M hM (M + 2) (m + 1) [] (by omega) (by omega)
  refine ⟨M + 2 + 1, ?_⟩
  unfold GetIllegalQIDs
  rw [e, h0]
  by_cases hlt : m < M
  · simp only [hlt, if_true]; exact ⟨_, rfl⟩
  · simp only [hlt, if_false]; exact ⟨_, rfl⟩

/-- Below `MAX_IOQ_ID` the result is the loop's list without `MAX_IOQ_ID - 1` and
`MAX_IOQ_ID`, followed by these two. -/
theorem GetIllegalQIDs_below (M fuel m : Nat) (l : List Nat) (hM : M ≤ 65535)
    (hlt : m < M) (h : GetIllegalQIDs M fuel m = some l) :
    ∃ l0, doublingLoop M fuel (m + 1) [] = some l0 ∧
      l = listRemove M (listRemove (M - 1) l0) ++ [M - 1, M] := by
  have e : (m + 1) % 4294967296 = m + 1 := by omega
  have e2 : (M + 4294967295) % 4294967296 = M - 1 := by omega
  unfold GetIllegalQIDs at h
  rw [e, e2] at h
  cases h0 : doublingLoop M fuel (m + 1) [] with
  | none => rw [h0] at h; simp at h
  | some l0 =>
    rw [h0] at h
    simp only [hlt, if_true, Option.some.injEq] at h
    exact ⟨l0, rfl, h.symm⟩

/-- From `MAX_IOQ_ID` on (and below `0xFFFFFFFF`) the result is the loop's list. -/
theorem GetIllegalQIDs_above (M fuel m : Nat) (l : List Nat)
    (hm : m < 4294967295) (hge : M ≤ m) (h : GetIllegalQIDs M fuel m = some l) :
    doublingLoop M fuel (m + 1) [] = some l := by
  have e : (m + 1) % 4294967296 = m + 1 := by omega
  have hlt : ¬ m < M := by omega
  unfold GetIllegalQIDs at h
  rw [e] at h
  cases h0 : doublingLoop M fuel (m + 1) [] with
  | none => rw [h0] at h; simp at h
  | some l0 =>
    rw [h0] at h
    simp only [hlt, if_false] at h
    exact h

/-- Membership in a list after `remove`. -/
theorem mem_listRemove (v x : Nat) (l : List Nat) :
    x ∈ listRemove v l ↔ x ∈ l ∧ x ≠ v := by
  simp [listRemove]

/-- From `MAX_IOQ_ID` on the loop emits nothing. -/
theorem doublingLoop_above_nil (M fuel q : Nat) (l : List Nat) (hM : M ≤ 65535)
    (hq : 1 ≤ q) (hge : M ≤ q) (h : doublingLoop M fuel q [] = some l) : l = [] := by
  apply List.eq_nil_iff_forall_not_mem.mpr
  intro x hx
  rcases (doublingLoop_mem M hM fuel q [] l hq h x).mp hx with h1 | ⟨k, hk, _⟩
  · simp at h1
  · have : q ≤ q * 2 ^ k := Nat.le_mul_of_pos_right q (Nat.two_pow_pos k)
    omega

end GrpAdminDeleteIOSQCmd

open GrpAdminDeleteIOSQCmd

/-! ## Claims about `GetIllegalQIDs` -/

/-- C1: for `maxSupported < MAX_ID` with `2 ≤ MAX_ID ≤ 0xFFFF`, `GetIllegalQIDs` returns, and
the list it returns ends with `MAX_ID - 1` followed by `MAX_ID`, each of which occurs
exactly once in the whole list. -/
theorem upper_boundary_last_and_once (M m : Nat) (h2 : 2 ≤ M) (hM : M ≤ 65535)
    (hm : m < M) :
    (∃ fuel l, GetIllegalQIDs M fuel m = some l) ∧
    ∀ fuel l, GetIllegalQIDs M fuel m = some l →
      (∃ pre, l = pre ++ [M - 1, M]) ∧ l.count (M - 1) = 1 ∧ l.count M = 1 := by
  refine ⟨GetIllegalQIDs_terminates M m hM (by omega), ?_⟩
  intro fuel l h
  obtain ⟨l0, _, rfl⟩ := GetIllegalQIDs_below M fuel m l hM hm h
  refine ⟨⟨_, rfl⟩, ?_, ?_⟩
  · have hz : (listRemove M (listRemove (M - 1) l0)).count (M - 1) = 0 := by
      apply List.count_eq_zero.mpr
      intro hx
      have := ((mem_listRemove _ _ _).mp ((mem_listRemove _ _ _).mp hx).1).2
      exact this rfl
    have hne : M ≠ M - 1 := by omega
    rw [List.count_append, hz]
    simp [List.count_cons, hne]
  · have hz : (listRemove M (listRemove (M - 1) l0)).count M = 0 := by
      apply List.count_eq_zero.mpr
      intro hx
      exact ((mem_listRemove _ _ _).mp hx).2 rfl
    have hne : M - 1 ≠ M := by omega
    rw [List.count_append, hz]
    simp [List.count_cons, hne]

/-- C1, at `MAX_ID = 16` and `maxSupported = 1`: the list is
`1, 2, 3, 3, 4, 5, 7, 8, 9, 15, 16`. -/
theorem upper_boundary_last_and_once_witness :
    GetIllegalQIDs 16 10 1 = some [1, 2, 3, 3, 4, 5, 7, 8, 9, 15, 16] ∧
    ((∃ fuel l, GetIllegalQIDs 16 fuel 1 = some l) ∧
     ∀ fuel l, GetIllegalQIDs 16 fuel 1 = some l →
      (∃ pre, l = pre ++ [16 - 1, 16]) ∧ l.count (16 - 1) = 1 ∧ l.count 16 = 1) :=
  ⟨by decide, upper_boundary_last_and_once 16 1 (by decide) (by decide) (by decide)⟩

/-- C2, as stated, fails: for `maxSupported = 1`, the value `RunCoreTest` passes first, the
loop emits `3` both as `qId + 1` for `qId = 2` and as `qId - 1` for `qId = 4`, and the
returned list holds it twice (with `MAX_ID = 16` and with `MAX_ID = 0xFFFF` alike). -/
theorem duplicate_three_for_one :
    (∃ l, GetIllegalQIDs 16 10 1 = some l ∧ l.count 3 = 2 ∧ ¬ l.Nodup) ∧
    (∃ l, GetIllegalQIDs 65535 20 1 = some l ∧ l.count 3 = 2 ∧ ¬ l.Nodup) :=
  ⟨⟨[1, 2, 3, 3, 4, 5, 7, 8, 9, 15, 16], by decide, by decide, by decide⟩,
   ⟨_, rfl, by decide, by decide⟩⟩

/-- C2, amended: for `2 ≤ maxSupported < 0xFFFFFFFF` (and `MAX_ID ≤ 0xFFFF`),
`GetIllegalQIDs` returns and the elements of the returned list are pairwise distinct. -/
theorem distinct_from_two (M m : Nat) (hM : M ≤ 65535) (h2 : 2 ≤ m)
    (hm : m < 4294967295) :
    (∃ fuel l, GetIllegalQIDs M fuel m = some l) ∧
    ∀ fuel l, GetIllegalQIDs M fuel m = some l → l.Nodup := by
  refine ⟨GetIllegalQIDs_terminates M m hM hm, ?_⟩
  intro fuel l h
  have lt_nodup : ∀ l1 : List Nat, l1.Pairwise (fun a b => a < b) → l1.Nodup := by
    intro l1 h1
    exact List.Pairwise.imp (fun hab => Nat.ne_of_lt hab) h1
  by_cases hlt : m < M
  · obtain ⟨l0, h0, rfl⟩ := GetIllegalQIDs_below M fuel m l hM hlt h
    have hs := doublingLoop_sorted M hM fuel (m + 1) [] l0 (by omega) List.Pairwise.nil
      (fun x hx => absurd hx (List.not_mem_nil x)) h0
    have hf : (listRemove M (listRemove (M - 1) l0)).Nodup := by
      unfold listRemove
      exact ((lt_nodup l0 hs).filter _).filter _
    rw [List.nodup_append]
    refine ⟨hf, ?_, ?_⟩
    · have hne : M - 1 ≠ M := by omega
      simp [hne]
    · intro x hx hx2
      simp only [List.mem_cons, List.mem_singleton, List.not_mem_nil, or_false] at hx2
      have a1 := (mem_listRemove _ _ _).mp hx
      have a2 := (mem_listRemove _ _ _).mp a1.1
      rcases hx2 with rfl | rfl
      · exact a2.2 rfl
      · exact a1.2 rfl
  · have h0 := GetIllegalQIDs_above M fuel m l hm (by omega) h
    exact lt_nodup l (doublingLoop_sorted M hM fuel (m + 1) [] l (by omega) List.Pairwise.nil
      (fun x hx => absurd hx (List.not_mem_nil x)) h0)

/-- C2, amended, at `MAX_ID = 16` and `maxSupported = 2`, the value `RunCoreTest` passes
second: the list is `2, 3, 4, 5, 6, 7, 11, 12, 13, 15, 16`. -/
theorem distinct_from_two_witness :
    GetIllegalQIDs 16 10 2 = some [2, 3, 4, 5, 6, 7, 11, 12, 13, 15, 16] ∧
    ((∃ fuel l, GetIllegalQIDs 16 fuel 2 = some l) ∧
     ∀ fuel l, GetIllegalQIDs 16 fuel 2 = some l → l.Nodup) :=
  ⟨by decide, distinct_from_two 16 2 (by decide) (by decide) (by decide)⟩

/-- C3: for `maxSupported < MAX_ID ≤ 0xFFFF` and every `k` with
`q = (maxSupported + 1) * 2^k < MAX_ID`, `GetIllegalQIDs` returns and the returned list
contains `q - 1`, `q` and `q + 1`. -/
theorem doublings_covered (M m k : Nat) (hM : M ≤ 65535) (hm : m < M)
    (hq : (m + 1) * 2 ^ k < M) :
    (∃ fuel l, GetIllegalQIDs M fuel m = some l) ∧
    ∀ fuel l, GetIllegalQIDs M fuel m = some l →
      (m + 1) * 2 ^ k - 1 ∈ l ∧ (m + 1) * 2 ^ k ∈ l ∧ (m + 1) * 2 ^ k + 1 ∈ l := by
  refine ⟨GetIllegalQIDs_terminates M m hM (by omega), ?_⟩
  intro fuel l h
  obtain ⟨l0, h0, rfl⟩ := GetIllegalQIDs_below M fuel m l hM hm h
  have hmem := doublingLoop_mem M hM fuel (m + 1) [] l0 (by omega) h0
  have hpos : 1 ≤ (m + 1) * 2 ^ k :=
    Nat.le_trans (by omega) (Nat.le_mul_of_pos_right (m + 1) (Nat.two_pow_pos k))
  have keep : ∀ x, x ∈ l0 → x ∈ listRemove M (listRemove (M - 1) l0) ++ [M - 1, M] := by
    intro x hx
    rw [List.mem_append]
    by_cases e1 : x = M - 1
    · right; simp [e1]
    · by_cases e2 : x = M
      · right; simp [e2]
      · left
        exact (mem_listRemove _ _ _).mpr ⟨(mem_listRemove _ _ _).mpr ⟨hx, e1⟩, e2⟩
  refine ⟨keep _ ?_, keep _ ?_, keep _ ?_⟩
  · exact (hmem _).mpr (Or.inr ⟨k, hq, Or.inl (by omega)⟩)
  · exact (hmem _).mpr (Or.inr ⟨k, hq, Or.inr (Or.inl rfl)⟩)
  · exact (hmem _).mpr (Or.inr ⟨k, hq, Or.inr (Or.inr rfl)⟩)

/-- C3, at `MAX_ID = 16`, `maxSupported = 1` and `k = 2` (`q = 8`): the list
`1, 2, 3, 3, 4, 5, 7, 8, 9, 15, 16` contains `2, 3, 4, 7, 8, 9, 15, 16`. -/
theorem doublings_covered_witness :
    (∃ l, GetIllegalQIDs 16 10 1 = some l ∧ ∀ x ∈ [2, 3, 4, 7, 8, 9, 15, 16], x ∈ l) ∧
    ((∃ fuel l, GetIllegalQIDs 16 fuel 1 = some l) ∧
     ∀ fuel l, GetIllegalQIDs 16 fuel 1 = some l →
      (1 + 1) * 2 ^ 2 - 1 ∈ l ∧ (1 + 1) * 2 ^ 2 ∈ l ∧ (1 + 1) * 2 ^ 2 + 1 ∈ l) :=
  ⟨⟨[1, 2, 3, 3, 4, 5, 7, 8, 9, 15, 16], by decide, by decide⟩,
   doublings_covered 16 1 2 (by decide) (by decide) (by decide)⟩

/-- C4, at the argument `0xFFFFFFFF` (which is `≥ MAX_ID`): `maxQIdsSupported + 1` wraps
to `0`, the guard `qId <= MAX_IOQ_ID + 1` holds, `qId <<= 1` leaves `0`, and the function
returns for no number of iterations. -/
theorem saturated_argument_never_returns :
    ∀ fuel, GetIllegalQIDs 16 fuel 4294967295 = none := by
  intro fuel
  have h := doublingLoop_zero 16 fuel []
  unfold GetIllegalQIDs
  have e : (4294967295 + 1) % 4294967296 = 0 := by decide
  rw [e, h]

/-- For `MAX_ID ≤ maxSupported < 0xFFFFFFFF` the function returns the empty list after at
most two evaluations of the guard: nothing is emitted and nothing is appended. -/
theorem saturated_below_wrap (M m : Nat) (hM : M ≤ 65535) (hge : M ≤ m)
    (hm : m < 4294967295) :
    (∃ fuel l, GetIllegalQIDs M fuel m = some l) ∧
    ∀ fuel l, GetIllegalQIDs M fuel m = some l → l = [] := by
  refine ⟨GetIllegalQIDs_terminates M m hM hm, ?_⟩
  intro fuel l h
  exact doublingLoop_above_nil M fuel (m + 1) l hM (by omega) (by omega)
    (GetIllegalQIDs_above M fuel m l hm hge h)

/-- The saturated case of the documentation, `MAX_ID = 16` and `maxSupported = 16`. -/
theorem saturated_below_wrap_witness :
    GetIllegalQIDs 16 2 16 = some [] ∧
    ((∃ fuel l, GetIllegalQIDs 16 fuel 16 = some l) ∧
     ∀ fuel l, GetIllegalQIDs 16 fuel 16 = some l → l = []) :=
  ⟨by decide, saturated_below_wrap 16 16 (by decide) (by decide) (by decide)⟩

/-- C5, at `maxSupported = 0xFFFFFFFF`, for every `MAX_ID`: the loop starts at
`qId = 0`, doubling does not make `qId` grow, and the guard never fails. -/
theorem doubling_loop_stuck_at_zero :
    ∀ M fuel ids, doublingLoop M fuel ((4294967295 + 1) % 4294967296) ids = none := by
  intro M fuel ids
  have e : (4294967295 + 1) % 4294967296 = 0 := by decide
  rw [e]
  exact doublingLoop_zero M fuel ids

/-- For every other 32-bit argument the loop leaves: from a positive `qId` the value doubles
without wrapping until it exceeds `MAX_IOQ_ID + 1`. -/
theorem doubling_loop_leaves (M m : Nat) (hM : M ≤ 65535) (hm : m < 4294967295) :
    ∃ l, doublingLoop M (M + 3) ((m + 1) % 4294967296) [] = some l := by
  have e : (m + 1) % 4294967296 = m + 1 := by omega
  rw [e]
  exact doublingLoop_terminates M hM (M + 2) (m + 1) [] (by omega) (by omega)

/-- The loop leaves for `MAX_ID = 16` and `maxSupported = 1`. -/
theorem doubling_loop_leaves_witness :
    ∃ l, doublingLoop 16 (16 + 3) ((1 + 1) % 4294967296) [] = some l :=
  doubling_loop_leaves 16 1 (by decide) (by decide)

/-- C6, as stated, fails: for `maxSupported = 0` the loop starts at `qId = 1` and emits
`qId - 1 = 0`, which is not a positive identifier of `[1, MAX_ID]`. -/
theorem zero_emitted_for_zero :
    ∃ l, GetIllegalQIDs 16 10 0 = some l ∧ l.head? = some 0 ∧
      ¬ (∀ x ∈ l, 1 ≤ x ∧ x ≤ 16) :=
  ⟨[0, 1, 2, 1, 2, 3, 3, 4, 5, 7, 8, 9, 15, 16], by decide, by decide, by decide⟩

/-- C6, amended: for `1 ≤ maxSupported < 0xFFFFFFFF` (and `MAX_ID ≤ 0xFFFF`),
`GetIllegalQIDs` returns and every element of the returned list lies in `[1, MAX_ID]`. -/
theorem elements_in_identifier_space (M m : Nat) (hM : M ≤ 65535) (h1 : 1 ≤ m)
    (hm : m < 4294967295) :
    (∃ fuel l, GetIllegalQIDs M fuel m = some l) ∧
    ∀ fuel l, GetIllegalQIDs M fuel m = some l → ∀ x ∈ l, 1 ≤ x ∧ x ≤ M := by
  refine ⟨GetIllegalQIDs_terminates M m hM hm, ?_⟩
  intro fuel l h x hx
  by_cases hlt : m < M
  · obtain ⟨l0, h0, rfl⟩ := GetIllegalQIDs_below M fuel m l hM hlt h
    rw [List.mem_append] at hx
    rcases hx with hx | hx
    · have hx0 := ((mem_listRemove _ _ _).mp ((mem_listRemove _ _ _).mp hx).1).1
      rcases (doublingLoop_mem M hM fuel (m + 1) [] l0 (by omega) h0 x).mp hx0 with
        h1 | ⟨k, hk, hk2⟩
      · simp at h1
      · have : m + 1 ≤ (m + 1) * 2 ^ k :=
          Nat.le_mul_of_pos_right (m + 1) (Nat.two_pow_pos k)
        omega
    · simp only [List.mem_cons, List.mem_singleton, List.not_mem_nil, or_false] at hx
      omega
  · have h0 := GetIllegalQIDs_above M fuel m l hm (by omega) h
    have := doublingLoop_above_nil M fuel (m + 1) l hM (by omega) (by omega) h0
    subst this
    simp at hx

/-- C6, amended, at `MAX_ID = 16` and `maxSupported = 1`. -/
theorem elements_in_identifier_space_witness :
    (∃ fuel l, GetIllegalQIDs 16 fuel 1 = some l) ∧
    ∀ fuel l, GetIllegalQIDs 16 fuel 1 = some l → ∀ x ∈ l, 1 ≤ x ∧ x ≤ 16 :=
  elements_in_identifier_space 16 1 (by decide) (by decide) (by decide)

/-- C7, as stated, fails: for `maxSupported = 2`, the value `RunCoreTest` passes second,
the loop doubles `3` to `6`, and `6` is in the returned list although it is not within
one of a power of two and is none of `maxSupported`, `MAX_ID - 1`, `MAX_ID`. -/
theorem six_is_no_power_of_two_neighbour :
    ∃ l, GetIllegalQIDs 16 10 2 = some l ∧ 6 ∈ l ∧
      (¬ ∃ j, 6 = 2 ^ j - 1 ∨ 6 = 2 ^ j ∨ 6 = 2 ^ j + 1) ∧ 6 ≠ 2 ∧ 6 ≠ 16 - 1 ∧ 6 ≠ 16 := by
  refine ⟨[2, 3, 4, 5, 6, 7, 11, 12, 13, 15, 16], by decide, by decide, ?_, by decide,
    by decide, by decide⟩
  rintro ⟨j, hj⟩
  by_cases h : j ≤ 2
  · have : j = 0 ∨ j = 1 ∨ j = 2 := by omega
    rcases this with rfl | rfl | rfl <;> simp at hj
  · have h8 : 2 ^ 3 ≤ 2 ^ j := Nat.pow_le_pow_right (by decide) (by omega)
    have e8 : (2 : Nat) ^ 3 = 8 := by decide
    omega

/-- C7, amended: for `maxSupported < MAX_ID ≤ 0xFFFF`, `GetIllegalQIDs` returns and every
element of the returned list is `q - 1`, `q` or `q + 1` for a doubling
`q = (maxSupported + 1) * 2^k` below `MAX_ID`, or is `MAX_ID - 1` or `MAX_ID`. -/
theorem elements_around_doublings (M m : Nat) (hM : M ≤ 65535) (hm : m < M) :
    (∃ fuel l, GetIllegalQIDs M fuel m = some l) ∧
    ∀ fuel l, GetIllegalQIDs M fuel m = some l → ∀ x ∈ l,
      (∃ k, (m + 1) * 2 ^ k < M ∧
        (x = (m + 1) * 2 ^ k - 1 ∨ x = (m + 1) * 2 ^ k ∨ x = (m + 1) * 2 ^ k + 1)) ∨
      x = M - 1 ∨ x = M := by
  refine ⟨GetIllegalQIDs_terminates M m hM (by omega), ?_⟩
  intro fuel l h x hx
  obtain ⟨l0, h0, rfl⟩ := GetIllegalQIDs_below M fuel m l hM hm h
  rw [List.mem_append] at hx
  rcases hx with hx | hx
  · have hx0 := ((mem_listRemove _ _ _).mp ((mem_listRemove _ _ _).mp hx).1).1
    rcases (doublingLoop_mem M hM fuel (m + 1) [] l0 (by omega) h0 x).mp hx0 with
      h1 | ⟨k, hk, hk2⟩
    · simp at h1
    · exact Or.inl ⟨k, hk, by omega⟩
  · simp only [List.mem_cons, List.mem_singleton, List.not_mem_nil, or_false] at hx
    exact Or.inr hx

/-- C7, amended, at `MAX_ID = 16` and `maxSupported = 2`. -/
theorem elements_around_doublings_witness :
    (∃ fuel l, GetIllegalQIDs 16 fuel 2 = some l) ∧
    ∀ fuel l, GetIllegalQIDs 16 fuel 2 = some l → ∀ x ∈ l,
      (∃ k, (2 + 1) * 2 ^ k < 16 ∧
        (x = (2 + 1) * 2 ^ k - 1 ∨ x = (2 + 1) * 2 ^ k ∨ x = (2 + 1) * 2 ^ k + 1)) ∨
      x = 16 - 1 ∨ x = 16 :=
  elements_around_doublings 16 2 (by decide) (by decide)


namespace AllCtrlRegs

/-! ## The bit scan -/

/-- Two values differ under a mask exactly when they differ at a bit of the mask. -/
theorem and_ne_and_iff (a b m : Nat) :
    (a &&& m) ≠ (b &&& m) ↔ ∃ j, m.testBit j = true ∧ a.testBit j ≠ b.testBit j := by
  constructor
  · intro h
    by_contra hc
    apply h
    apply Nat.eq_of_testBit_eq
    intro j
    rw [Nat.testBit_and, Nat.testBit_and]
    cases hm : m.testBit j with
    | false => simp
    | true =>
      have : a.testBit j = b.testBit j := by
        by_contra hne
        exact hc ⟨j, hm, hne⟩
      simp [this]
  · rintro ⟨j, hm, hne⟩ h
    have := congrArg (fun x => x.testBit j) h
    simp only [Nat.testBit_and, hm, Bool.and_true] at this
    exact hne this

/-- The bits of the mask for `i = 31`: bits `31 .. 63` are all set. -/
theorem testBit_mask31 (j : Nat) :
    (18446744071562067968 : Nat).testBit j = (decide (j < 64) && !decide (j < 31)) := by
  have e : (18446744071562067968 : Nat) = 2 ^ 64 - ((2 ^ 31 - 1) + 1) := by norm_num
  have hlt : (2 ^ 31 - 1 : Nat) < 2 ^ 64 := by norm_num
  rw [e, Nat.testBit_two_pow_sub_succ hlt, Nat.testBit_two_pow_sub_one]

/-- Below `31` the mask is the single bit `i`. -/
theorem bitMask_low (ws : Nat → Nat) (i : Nat) (h : i < 31) : bitMask ws i = 2 ^ i := by
  simp [bitMask, h]

/-- At `31` the mask is the sign-extended `INT_MIN`. -/
theorem bitMask_31 (ws : Nat → Nat) : bitMask ws 31 = 18446744071562067968 := by
  simp [bitMask]

/-- Below `31` the comparison of the loop body looks at bit `i` alone. -/
theorem differ_low_iff (ws : Nat → Nat) (a b i : Nat) (h : i < 31) :
    (a &&& bitMask ws i) ≠ (b &&& bitMask ws i) ↔ a.testBit i ≠ b.testBit i := by
  rw [bitMask_low ws i h, and_ne_and_iff]
  constructor
  · rintro ⟨j, hj, hne⟩
    rw [Nat.testBit_two_pow] at hj
    have : i = j := by simpa using hj
    subst this
    exact hne
  · intro hne
    exact ⟨i, Nat.testBit_two_pow_self, hne⟩

/-- At `31` the comparison of the loop body looks at all of the bits `31 .. 63`. -/
theorem differ_31_iff (ws : Nat → Nat) (a b : Nat) :
    (a &&& bitMask ws 31) ≠ (b &&& bitMask ws 31) ↔
      ∃ j, 31 ≤ j ∧ j < 64 ∧ a.testBit j ≠ b.testBit j := by
  rw [bitMask_31, and_ne_and_iff]
  constructor
  · rintro ⟨j, hj, hne⟩
    rw [testBit_mask31] at hj
    simp only [Bool.and_eq_true, decide_eq_true_eq, Bool.not_eq_true', decide_eq_false_iff_not,
      Nat.not_lt] at hj
    exact ⟨j, hj.2, hj.1, hne⟩
  · rintro ⟨j, h1, h2, hne⟩
    refine ⟨j, ?_, hne⟩
    rw [testBit_mask31]
    simp only [Bool.and_eq_true, decide_eq_true_eq, Bool.not_eq_true', decide_eq_false_iff_not,
      Nat.not_lt]
    exact ⟨h2, h1⟩

/-- The scan falls through when no iteration sees a difference. -/
theorem scanBits_none (ws : Nat → Nat) (a b : Nat) :
    ∀ (n i : Nat), (∀ j, i ≤ j → j < i + n → (a &&& bitMask ws j) = (b &&& bitMask ws j)) →
      scanBits ws a b n i = INT_MAX := by
  intro n
  induction n with
  | zero => intro i _; rfl
  | succ n ih =>
    intro i h
    have h0 := h i (Nat.le_refl i) (by omega)
    simp only [scanBits, h0, bne_self_eq_false, Bool.false_eq_true, if_false]
    exact ih (i + 1) (fun j h1 h2 => h j (by omega) (by omega))

/-- The scan returns the first iteration that sees a difference. -/
theorem scanBits_first (ws : Nat → Nat) (a b j0 : Nat) :
    ∀ (n i : Nat), i ≤ j0 → j0 < i + n →
      (∀ j, i ≤ j → j < j0 → (a &&& bitMask ws j) = (b &&& bitMask ws j)) →
      (a &&& bitMask ws j0) ≠ (b &&& bitMask ws j0) →
      scanBits ws a b n i = j0 := by
  intro n
  induction n with
  | zero => intro i h1 h2; omega
  | succ n ih =>
    intro i h1 h2 heq hne
    by_cases e : i = j0
    · subst e
      simp [scanBits, hne]
    · have h0 := heq i (Nat.le_refl i) (by omega)
      simp only [scanBits, h0, bne_self_eq_false, Bool.false_eq_true, if_false]
      exact ih (i + 1) (by omega) (by omega) (fun j h3 h4 => heq j (by omega) h4) hne

/-- Equal values: the scan reports no mismatch. -/
theorem ReportOffendingBitPos_self (ws : Nat → Nat) (a : Nat) :
    ReportOffendingBitPos ws a a = INT_MAX :=
  scanBits_none ws a a 64 0 (fun _ _ _ => rfl)

/-- What the scan returns for two different 64-bit values whose lowest differing bit is
`j0`: the position `j0` when `j0 < 31`, and `31` for every `j0` from `31` to `63`. -/
theorem ReportOffendingBitPos_lowest (ws : Nat → Nat) (a b j0 : Nat) (hj : j0 < 64)
    (hne : a.testBit j0 ≠ b.testBit j0) (hlow : ∀ j, j < j0 → a.testBit j = b.testBit j) :
    ReportOffendingBitPos ws a b = min j0 31 := by
  unfold ReportOffendingBitPos
  by_cases h31 : j0 < 31
  · rw [Nat.min_eq_left (by omega)]
    apply scanBits_first ws a b j0 64 0 (Nat.zero_le _) (by omega)
    · intro j _ h2
      by_contra hc
      exact ((differ_low_iff ws a b j (by omega)).mp hc) (hlow j h2)
    · exact (differ_low_iff ws a b j0 h31).mpr hne
  · rw [Nat.min_eq_right (by omega)]
    apply scanBits_first ws a b 31 64 0 (Nat.zero_le _) (by omega)
    · intro j _ h2
      by_contra hc
      exact ((differ_low_iff ws a b j h2).mp hc) (hlow j (by omega))
    · exact (differ_31_iff ws a b).mpr ⟨j0, by omega, hj, hne⟩

/-- Two different 64-bit values have a lowest differing bit, below `64`. -/
theorem exists_lowest_differing_bit (a b : Nat) (ha : a < 18446744073709551616)
    (hb : b < 18446744073709551616) (hne : a ≠ b) :
    ∃ j0, j0 < 64 ∧ a.testBit j0 ≠ b.testBit j0 ∧ ∀ j, j < j0 → a.testBit j = b.testBit j := by
  have hex : ∃ j, a.testBit j ≠ b.testBit j := Nat.ne_implies_bit_diff hne
  classical
  refine ⟨Nat.find hex, ?_, Nat.find_spec hex, ?_⟩
  · by_contra hge
    have h64 : (2 : Nat) ^ 64 ≤ 2 ^ Nat.find hex := Nat.pow_le_pow_right (by decide) (by omega)
    have e64 : (2 : Nat) ^ 64 = 18446744073709551616 := by norm_num
    have h1 : a.testBit (Nat.find hex) = false := Nat.testBit_lt_two_pow (by omega)
    have h2 : b.testBit (Nat.find hex) = false := Nat.testBit_lt_two_pow (by omega)
    exact Nat.find_spec hex (by rw [h1, h2])
  · intro j hj
    by_contra hc
    exact Nat.find_min hex hj hc

/-- Different 64-bit values: the scan reports a position of at most `31`. -/
theorem ReportOffendingBitPos_le (ws : Nat → Nat) (a b : Nat)
    (ha : a < 18446744073709551616) (hb : b < 18446744073709551616) (hne : a ≠ b) :
    ReportOffendingBitPos ws a b ≤ 31 := by
  obtain ⟨j0, hj, hd, hlow⟩ := exists_lowest_differing_bit a b ha hb hne
  rw [ReportOffendingBitPos_lowest ws a b j0 hj hd hlow]
  exact Nat.min_le_right _ _

/-! ## The single-register check -/

/-- A line logged by the check never carries the sentinel: the check calls the scan on
two different 64-bit values only. -/
theorem checkROValue_bitPos (ws : Nat → Nat) (d : CtlSpcType) (v : Nat) (e : LogErr)
    (h : checkROValue ws d v = some e) : e.bitPos ≤ 31 := by
  unfold checkROValue at h
  split at h
  · rename_i hc
    simp only [Option.some.injEq] at h
    subst h
    exact ReportOffendingBitPos_le ws _ _ (Nat.mod_lt _ (by decide)) (Nat.mod_lt _ (by decide))
      (by simpa using hc)
  · simp at h

/-- The check passes exactly when the masked value equals the masked default. -/
theorem checkROValue_none_iff (ws : Nat → Nat) (d : CtlSpcType) (v : Nat) :
    checkROValue ws d v = none ↔
      ((v &&& not64 d.impSpec) &&& d.maskRO) % 18446744073709551616
        = (d.dfltValue &&& d.maskRO) % 18446744073709551616 := by
  unfold checkROValue
  split
  · rename_i hc
    simp only [false_iff, reduceCtorEq]
    simpa using hc
  · rename_i hc
    simp only [true_iff]
    simpa using hc

/-- Lines logged by the chunk loop. -/
theorem wideChunks_bitPos {σ : Type} (ws : Nat → Nat) (R : Registers σ) (d : CtlSpcType) :
    ∀ (ks : List Nat) (s : σ) (e : LogErr), e ∈ (wideChunks ws R d ks s).errLog →
      e.bitPos ≤ 31 := by
  intro ks
  induction ks with
  | nil => intro s e he; simp [wideChunks] at he
  | cons k ks ih =>
    intro s e he
    unfold wideChunks at he
    split at he
    · simp at he
    · split at he
      · rename_i e1 hc
        simp only [List.mem_singleton] at he
        subst he
        exact checkROValue_bitPos ws d _ _ hc
      · exact ih _ e he

/-- Lines logged by `ValidateCtlRegisterROAttribute`. -/
theorem ValidateCtlRegisterROAttribute_bitPos {σ : Type} (ws : Nat → Nat) (G : RegDefs)
    (R : Registers σ) (reg : Nat) (s : σ) (e : LogErr)
    (he : e ∈ (ValidateCtlRegisterROAttribute ws G R reg s).errLog) : e.bitPos ≤ 31 := by
  unfold ValidateCtlRegisterROAttribute at he
  split at he
  · exact wideChunks_bitPos ws R _ _ s e he
  · split at he
    · simp at he
    · split at he
      · rename_i e1 hc
        simp only [List.mem_singleton] at he
        subst he
        exact checkROValue_bitPos ws _ _ _ hc
      · simp at he

end AllCtrlRegs

open AllCtrlRegs

/-! ## Claims about the register validator -/

/-- C8, at `val = 0x100000000` and `expectedVal = 0`: the two values agree on bits
`0 .. 31` and differ at bit `32`, so the lowest differing bit is `32`; the scan returns
`31`, because the mask `(1 << 31)` is a negative `int` that widens to
`0xFFFFFFFF80000000` and covers bit `32` too.  This holds whatever the shifts by `32` and
more, which are never reached, would give. -/
theorem offending_bit_32_reported_as_31 :
    ∀ ws : Nat → Nat,
      ReportOffendingBitPos ws 4294967296 0 = 31 ∧
      (∀ j, j < 32 → (4294967296 : Nat).testBit j = (0 : Nat).testBit j) ∧
      (4294967296 : Nat).testBit 32 ≠ (0 : Nat).testBit 32 := by
  intro ws
  have e : (4294967296 : Nat) = 2 ^ 32 := by norm_num
  have hlow : ∀ j, j < 32 → (4294967296 : Nat).testBit j = (0 : Nat).testBit j := by
    intro j hj
    rw [e, Nat.testBit_two_pow, Nat.zero_testBit]
    simp; omega
  have hd : (4294967296 : Nat).testBit 32 ≠ (0 : Nat).testBit 32 := by
    rw [e, Nat.testBit_two_pow_self, Nat.zero_testBit]; simp
  refine ⟨?_, hlow, hd⟩
  rw [ReportOffendingBitPos_lowest ws 4294967296 0 32 (by decide) hd hlow]
  rfl

/-- The documented example: `ReportOffendingBitPos(0b1010, 0b1000)` is `1`. -/
theorem offending_bit_example :
    ∀ ws : Nat → Nat, ReportOffendingBitPos ws 10 8 = 1 := by
  intro ws
  have hd : (10 : Nat).testBit 1 ≠ (8 : Nat).testBit 1 := by decide
  have hlow : ∀ j, j < 1 → (10 : Nat).testBit j = (8 : Nat).testBit j := by
    intro j hj
    have : j = 0 := by omega
    subst this
    decide
  rw [ReportOffendingBitPos_lowest ws 10 8 1 (by decide) hd hlow]
  rfl

/-- C9: for 64-bit `val` and `expectedVal`, `ReportOffendingBitPos` returns the sentinel
`INT_MAX` if and only if the two are equal; and no `LOG_ERR` line written by
`ValidateCtlRegisterROAttribute` for a failing register carries the sentinel as its bit
position. -/
theorem sentinel_iff_equal (ws : Nat → Nat) (val expectedVal : Nat)
    (hv : val < 18446744073709551616) (he : expectedVal < 18446744073709551616) :
    (ReportOffendingBitPos ws val expectedVal = INT_MAX ↔ val = expectedVal) ∧
    ∀ (σ : Type) (G : RegDefs) (R : Registers σ) (reg : Nat) (s : σ),
      ∀ e ∈ (ValidateCtlRegisterROAttribute ws G R reg s).errLog, e.bitPos ≠ INT_MAX := by
  constructor
  · constructor
    · intro h
      by_contra hne
      have := ReportOffendingBitPos_le ws val expectedVal hv he hne
      rw [h] at this
      exact absurd this (by decide)
    · intro h
      rw [h]
      exact ReportOffendingBitPos_self ws expectedVal
  · intro σ G R reg s e hmem h
    have := ValidateCtlRegisterROAttribute_bitPos ws G R reg s e hmem
    rw [h] at this
    exact absurd this (by decide)

/-- C9, at `val = 0x100000000` and `expectedVal = 0`. -/
theorem sentinel_iff_equal_witness :
    (ReportOffendingBitPos (fun _ => 0) 4294967296 0 = INT_MAX ↔ (4294967296 : Nat) = 0) ∧
    ∀ (σ : Type) (G : RegDefs) (R : Registers σ) (reg : Nat) (s : σ),
      ∀ e ∈ (ValidateCtlRegisterROAttribute (fun _ => 0) G R reg s).errLog,
        e.bitPos ≠ INT_MAX :=
  sentinel_iff_equal (fun _ => 0) 4294967296 0 (by decide) (by decide)

/-- C10: for a native-width register (`size ≤ MAX_SUPPORTED_REG_SIZE`) with a 64-bit
read-only mask, and a 64-bit value `v` returned by a successful read,
`ValidateCtlRegisterROAttribute` returns normally if and only if
`((v & ~impSpec) & maskRO) == (dfltValue & maskRO)`, and throws otherwise. -/
theorem native_check_iff {σ : Type} (ws : Nat → Nat) (G : RegDefs) (R : Registers σ)
    (reg : Nat) (s s1 : σ) (v : Nat)
    (hsize : (G.ctlMetrics reg).size ≤ G.MAX_SUPPORTED_REG_SIZE)
    (hmask : (G.ctlMetrics reg).maskRO < 18446744073709551616)
    (hv : v < 18446744073709551616)
    (hread : R.Read reg s = (some v, s1)) :
    ((ValidateCtlRegisterROAttribute ws G R reg s).result = .ok () ↔
      ((v &&& not64 (G.ctlMetrics reg).impSpec) &&& (G.ctlMetrics reg).maskRO)
        = ((G.ctlMetrics reg).dfltValue &&& (G.ctlMetrics reg).maskRO)) ∧
    (((v &&& not64 (G.ctlMetrics reg).impSpec) &&& (G.ctlMetrics reg).maskRO)
        ≠ ((G.ctlMetrics reg).dfltValue &&& (G.ctlMetrics reg).maskRO) →
      (ValidateCtlRegisterROAttribute ws G R reg s).result = .error .exception) := by
  have e64 : (2 : Nat) ^ 64 = 18446744073709551616 := by norm_num
  have hmask2 : (G.ctlMetrics reg).maskRO < 2 ^ 64 := by rw [e64]; exact hmask
  have m1 : ((v &&& not64 (G.ctlMetrics reg).impSpec) &&& (G.ctlMetrics reg).maskRO)
      % 18446744073709551616
      = ((v &&& not64 (G.ctlMetrics reg).impSpec) &&& (G.ctlMetrics reg).maskRO) := by
    apply Nat.mod_eq_of_lt
    rw [← e64]
    exact Nat.and_lt_two_pow _ hmask2
  have m2 : ((G.ctlMetrics reg).dfltValue &&& (G.ctlMetrics reg).maskRO) % 18446744073709551616
      = ((G.ctlMetrics reg).dfltValue &&& (G.ctlMetrics reg).maskRO) := by
    apply Nat.mod_eq_of_lt
    rw [← e64]
    exact Nat.and_lt_two_pow _ hmask2
  have hvm : v % 18446744073709551616 = v := Nat.mod_eq_of_lt hv
  have hns : ¬ (G.ctlMetrics reg).size > G.MAX_SUPPORTED_REG_SIZE := by omega
  have key := checkROValue_none_iff ws (G.ctlMetrics reg) v
  rw [m1, m2] at key
  unfold ValidateCtlRegisterROAttribute
  simp only [hns, if_false, hread, hvm]
  cases hc : checkROValue ws (G.ctlMetrics reg) v with
  | none =>
    have := key.mp hc
    simp [this]
  | some e1 =>
    have hne : ¬ ((v &&& not64 (G.ctlMetrics reg).impSpec) &&& (G.ctlMetrics reg).maskRO)
        = ((G.ctlMetrics reg).dfltValue &&& (G.ctlMetrics reg).maskRO) := by
      intro h
      have := key.mpr h
      rw [hc] at this
      simp at this
    simp [hne]

/-- C10, on the sample table, for a read value `0x00FF0200` that differs from the default
`0x00000200` in implementation-specific bits only: the check passes. -/
theorem native_check_iff_witness :
    (ValidateCtlRegisterROAttribute (fun _ => 0) sampleDefs (constRegisters 16712192) 0 ()).result
      = .ok () ∧
    ((ValidateCtlRegisterROAttribute (fun _ => 0) sampleDefs (constRegisters 16712192) 0 ()).result
        = .ok () ↔
      ((16712192 &&& not64 (sampleDefs.ctlMetrics 0).impSpec) &&& (sampleDefs.ctlMetrics 0).maskRO)
        = ((sampleDefs.ctlMetrics 0).dfltValue &&& (sampleDefs.ctlMetrics 0).maskRO)) ∧
    (((16712192 &&& not64 (sampleDefs.ctlMetrics 0).impSpec) &&& (sampleDefs.ctlMetrics 0).maskRO)
        ≠ ((sampleDefs.ctlMetrics 0).dfltValue &&& (sampleDefs.ctlMetrics 0).maskRO) →
      (ValidateCtlRegisterROAttribute (fun _ => 0) sampleDefs (constRegisters 16712192) 0 ()).result
        = .error .exception) :=
  have h := native_check_iff (fun _ => 0) sampleDefs (constRegisters 16712192) 0 () () 16712192
    (by decide) (by decide) (by decide) rfl
  ⟨h.1.mpr (by decide), h⟩

/-- The check on the sample table for a read value `0x00000201`, which differs from the
default in the read-only bit `0`: it throws and logs bit position `0`. -/
theorem native_check_mismatch_example :
    (ValidateCtlRegisterROAttribute (fun _ => 0) sampleDefs (constRegisters 513) 0 ()).result
      = .error .exception ∧
    (ValidateCtlRegisterROAttribute (fun _ => 0) sampleDefs (constRegisters 513) 0 ()).errLog
      = [⟨"CAP", 0⟩] := by
  constructor <;> rfl

/-! ## More on `GetIllegalQIDs` -/

/-- The loop only appends to the list it is given. -/
theorem GrpAdminDeleteIOSQCmd.doublingLoop_prefix (M : Nat) :
    ∀ (fuel q : Nat) (ids l : List Nat), doublingLoop M fuel q ids = some l →
      ∃ t, l = ids ++ t := by
  intro fuel
  induction fuel with
  | zero => intro q ids l h; simp [doublingLoop] at h
  | succ n ih =>
    intro q ids l h
    unfold doublingLoop at h
    split at h
    · split at h
      · obtain ⟨t, ht⟩ := ih _ _ _ h
        exact ⟨_, by rw [ht, List.append_assoc]⟩
      · exact ih _ _ _ h
    · simp only [Option.some.injEq] at h
      exact ⟨[], by simp [h]⟩

/-- C20: for `maxSupported < MAX_ID ≤ 0xFFFF`, `GetIllegalQIDs` returns, every element `x`
of the returned list satisfies `maxSupported ≤ x ≤ MAX_ID`, and when
`maxSupported + 1 < MAX_ID` the first element is `maxSupported` itself. -/
theorem elements_between_supported_and_ceiling (M m : Nat) (hM : M ≤ 65535) (hm : m < M) :
    (∃ fuel l, GetIllegalQIDs M fuel m = some l) ∧
    ∀ fuel l, GetIllegalQIDs M fuel m = some l →
      (∀ x ∈ l, m ≤ x ∧ x ≤ M) ∧ (m + 1 < M → l.head? = some m) := by
  refine ⟨GetIllegalQIDs_terminates M m hM (by omega), ?_⟩
  intro fuel l h
  obtain ⟨l0, h0, rfl⟩ := GetIllegalQIDs_below M fuel m l hM hm h
  constructor
  · intro x hx
    rw [List.mem_append] at hx
    rcases hx with hx | hx
    · have hx0 := ((mem_listRemove _ _ _).mp ((mem_listRemove _ _ _).mp hx).1).1
      rcases (doublingLoop_mem M hM fuel (m + 1) [] l0 (by omega) h0 x).mp hx0 with
        h1 | ⟨k, hk, hk2⟩
      · simp at h1
      · have : m + 1 ≤ (m + 1) * 2 ^ k :=
          Nat.le_mul_of_pos_right (m + 1) (Nat.two_pow_pos k)
        omega
    · simp only [List.mem_cons, List.mem_singleton, List.not_mem_nil, or_false] at hx
      omega
  · intro hlt
    cases fuel with
    | zero => simp [doublingLoop] at h0
    | succ n =>
      rw [doublingLoop_step M n (m + 1) [] hM (by omega) (by omega)] at h0
      simp only [hlt, if_true, List.nil_append, Nat.add_sub_cancel] at h0
      obtain ⟨t, rfl⟩ := doublingLoop_prefix M n _ _ _ h0
      have e1 : (m != M - 1) = true := by simp; omega
      have e2 : (m != M) = true := by simp; omega
      simp [listRemove, List.filter_cons, e1, e2]

/-- C20, at `MAX_ID = 16` and `maxSupported = 2`, the value `RunCoreTest` passes second:
the list `2, 3, 4, 5, 6, 7, 11, 12, 13, 15, 16` starts with `2` and does not contain `1`. -/
theorem elements_between_supported_and_ceiling_witness :
    (∃ l, GetIllegalQIDs 16 10 2 = some l ∧ 1 ∉ l) ∧
    ((∃ fuel l, GetIllegalQIDs 16 fuel 2 = some l) ∧
     ∀ fuel l, GetIllegalQIDs 16 fuel 2 = some l →
      (∀ x ∈ l, 2 ≤ x ∧ x ≤ 16) ∧ (2 + 1 < 16 → l.head? = some 2)) :=
  ⟨⟨[2, 3, 4, 5, 6, 7, 11, 12, 13, 15, 16], by decide, by decide⟩,
   elements_between_supported_and_ceiling 16 2 (by decide) (by decide)⟩

namespace AllCtrlRegs

/-! ## Bits of the masked comparison -/

/-- The bits of `~x` for a `uint64_t`. -/
theorem testBit_not64 (x i : Nat) :
    (not64 x).testBit i = (decide (i < 64) && !x.testBit i) := by
  have e : not64 x = 2 ^ 64 - (x % 2 ^ 64 + 1) := by
    unfold not64
    norm_num
    omega
  have hlt : x % 2 ^ 64 < 2 ^ 64 := Nat.mod_lt _ (Nat.two_pow_pos 64)
  rw [e, Nat.testBit_two_pow_sub_succ hlt, Nat.testBit_mod_two_pow]
  by_cases h : i < 64 <;> simp [h]

/-- A set bit of a `uint64_t` has an index below `64`. -/
theorem lt64_of_testBit {x i : Nat} (hx : x < 18446744073709551616)
    (h : x.testBit i = true) : i < 64 := by
  by_contra hge
  have h64 : (2 : Nat) ^ 64 ≤ 2 ^ i := Nat.pow_le_pow_right (by decide) (by omega)
  have e64 : (2 : Nat) ^ 64 = 18446744073709551616 := by norm_num
  have : x.testBit i = false := Nat.testBit_lt_two_pow (by omega)
  rw [this] at h
  exact Bool.noConfusion h

/-- The value that the check compares is a `uint64_t`. -/
theorem masked_lt (v imp m : Nat) : (v &&& not64 imp) &&& m < 18446744073709551616 := by
  have h1 : (v &&& not64 imp) &&& m ≤ v &&& not64 imp := Nat.and_le_left
  have h2 : v &&& not64 imp ≤ not64 imp := Nat.and_le_right
  have h3 : not64 imp < 18446744073709551616 := by unfold not64; omega
  omega

/-- The check bit by bit: it passes when, at every read-only bit, the default bit equals
the bit that was read with the implementation-specific bits cleared.  The default is not
cleared at implementation-specific bits. -/
theorem checkROValue_none_iff_bits (ws : Nat → Nat) (d : CtlSpcType) (v : Nat)
    (hm : d.maskRO < 18446744073709551616) :
    checkROValue ws d v = none ↔
      ∀ i, d.maskRO.testBit i = true →
        (v.testBit i && !d.impSpec.testBit i) = d.dfltValue.testBit i := by
  have e64 : (2 : Nat) ^ 64 = 18446744073709551616 := by norm_num
  have m1 : ((v &&& not64 d.impSpec) &&& d.maskRO) % 18446744073709551616
      = ((v &&& not64 d.impSpec) &&& d.maskRO) := Nat.mod_eq_of_lt (masked_lt _ _ _)
  have m2 : (d.dfltValue &&& d.maskRO) % 18446744073709551616 = (d.dfltValue &&& d.maskRO) := by
    apply Nat.mod_eq_of_lt
    have : d.dfltValue &&& d.maskRO ≤ d.maskRO := Nat.and_le_right
    omega
  rw [checkROValue_none_iff, m1, m2]
  constructor
  · intro h i hi
    have h64 := lt64_of_testBit hm hi
    have := congrArg (fun x => x.testBit i) h
    simp only [Nat.testBit_and, testBit_not64, hi, Bool.and_true, h64, decide_True,
      Bool.true_and] at this
    exact this
  · intro h
    apply Nat.eq_of_testBit_eq
    intro i
    simp only [Nat.testBit_and, testBit_not64]
    cases hi : d.maskRO.testBit i with
    | false => simp
    | true =>
      have h64 := lt64_of_testBit hm hi
      have := h i hi
      simp only [h64, decide_True, Bool.true_and, Bool.and_true]
      exact this

/-- The check in terms of the effective checked set `maskRO & ~impSpec`: it passes exactly
when the value agrees with the default on that set and, in addition, the default has no
bit set where `maskRO` and `impSpec` overlap. -/
theorem checkROValue_none_iff_effective (ws : Nat → Nat) (d : CtlSpcType) (v : Nat)
    (hm : d.maskRO < 18446744073709551616) :
    checkROValue ws d v = none ↔
      (∀ i, (d.maskRO &&& not64 d.impSpec).testBit i = true →
        v.testBit i = d.dfltValue.testBit i) ∧
      (∀ i, (d.maskRO &&& d.impSpec).testBit i = true → d.dfltValue.testBit i = false) := by
  rw [checkROValue_none_iff_bits ws d v hm]
  constructor
  · intro h
    constructor
    · intro i hi
      simp only [Nat.testBit_and, testBit_not64, Bool.and_eq_true, decide_eq_true_eq,
        Bool.not_eq_true'] at hi
      have := h i hi.1
      rw [hi.2.2] at this
      simpa using this
    · intro i hi
      simp only [Nat.testBit_and, Bool.and_eq_true] at hi
      have := h i hi.1
      rw [hi.2] at this
      simpa using this.symm
  · rintro ⟨h1, h2⟩ i hi
    have h64 := lt64_of_testBit hm hi
    cases himp : d.impSpec.testBit i with
    | true =>
      have := h2 i (by simp [Nat.testBit_and, hi, himp])
      simp [this]
    | false =>
      have := h1 i (by simp [Nat.testBit_and, testBit_not64, hi, himp, h64])
      simp [this]

end AllCtrlRegs

/-- C11, on a descriptor whose bit `0` is read-only, implementation specific and `1` by
default, for every read value `v`: the effective checked set `maskRO & ~impSpec` is empty,
so `v` agrees with the default on all of it, and still the check throws, because the
expected value `dfltValue & maskRO` keeps the implementation-specific bit that was
cleared in the value read. -/
theorem overlap_default_bit_fails_check :
    ∀ v : Nat,
      (ValidateCtlRegisterROAttribute (fun _ => 0) overlapDefs (constRegisters v) 0 ()).result
        = .error .exception ∧
      (overlapDefs.ctlMetrics 0).size ≤ overlapDefs.MAX_SUPPORTED_REG_SIZE ∧
      (overlapDefs.ctlMetrics 0).maskRO &&& not64 (overlapDefs.ctlMetrics 0).impSpec = 0 ∧
      (∀ i, ((overlapDefs.ctlMetrics 0).maskRO
              &&& not64 (overlapDefs.ctlMetrics 0).impSpec).testBit i = true →
        v.testBit i = (overlapDefs.ctlMetrics 0).dfltValue.testBit i) := by
  intro v
  have hzero : (overlapDefs.ctlMetrics 0).maskRO &&& not64 (overlapDefs.ctlMetrics 0).impSpec
      = 0 := by decide
  refine ⟨?_, by decide, hzero, ?_⟩
  · have hne : checkROValue (fun _ => 0) (overlapDefs.ctlMetrics 0) (v % 18446744073709551616)
        ≠ none := by
      intro h
      have hb := (checkROValue_none_iff_bits _ _ _ (by decide)).mp h 0 (by decide)
      have e1 : (overlapDefs.ctlMetrics 0).impSpec.testBit 0 = true := by decide
      have e2 : (overlapDefs.ctlMetrics 0).dfltValue.testBit 0 = true := by decide
      rw [e1, e2] at hb
      simp at hb
    have hns : ¬ (overlapDefs.ctlMetrics 0).size > overlapDefs.MAX_SUPPORTED_REG_SIZE := by
      decide
    unfold ValidateCtlRegisterROAttribute
    simp only [hns, if_false, constRegisters]
    cases hc : checkROValue (fun _ => 0) (overlapDefs.ctlMetrics 0) (v % 18446744073709551616) with
    | none => exact absurd hc hne
    | some e => rfl
  · intro i hi
    rw [hzero, Nat.zero_testBit] at hi
    exact Bool.noConfusion hi

namespace AllCtrlRegs

/-! ## The chunk loop -/

/-- Truncating a value to 64 bits before clearing bits with a 64-bit mask changes
nothing. -/
theorem mod_and_not64 (v x : Nat) :
    v % 18446744073709551616 &&& not64 x = v &&& not64 x := by
  have e64 : (18446744073709551616 : Nat) = 2 ^ 64 := by norm_num
  apply Nat.eq_of_testBit_eq
  intro i
  rw [e64]
  simp only [Nat.testBit_and, Nat.testBit_mod_two_pow, testBit_not64]
  by_cases h : i < 64 <;> simp [h]

/-- The check of a value in terms of the plain masked comparison. -/
theorem checkROValue_mod_none_iff (ws : Nat → Nat) (d : CtlSpcType) (v : Nat)
    (hm : d.maskRO < 18446744073709551616) :
    checkROValue ws d (v % 18446744073709551616) = none ↔
      ((v &&& not64 d.impSpec) &&& d.maskRO) = (d.dfltValue &&& d.maskRO) := by
  have m1 : ((v &&& not64 d.impSpec) &&& d.maskRO) % 18446744073709551616
      = ((v &&& not64 d.impSpec) &&& d.maskRO) := Nat.mod_eq_of_lt (masked_lt _ _ _)
  have m2 : (d.dfltValue &&& d.maskRO) % 18446744073709551616 = (d.dfltValue &&& d.maskRO) := by
    apply Nat.mod_eq_of_lt
    have : d.dfltValue &&& d.maskRO ≤ d.maskRO := Nat.and_le_right
    omega
  rw [checkROValue_none_iff, mod_and_not64, m1, m2]

/-- The chunk loop over the chunks `a .. a + len - 1`, entered in the state that the
reads of the chunks before `a` have left, returns normally exactly when each of these
chunks is read successfully and passes the check of the descriptor. -/
theorem wideChunks_ok_iff {σ : Type} (ws : Nat → Nat) (R : Registers σ) (d : CtlSpcType)
    (s : σ) :
    ∀ (len a : Nat),
      (wideChunks ws R d (List.range' a len) (stateAfterChunks R d a s)).result = .ok () ↔
      ∀ k, a ≤ k → k < a + len →
        ∃ v, (R.ReadBar01 8 (d.offset + k * 8) (stateAfterChunks R d k s)).1 = some v ∧
          checkROValue ws d (v % 18446744073709551616) = none := by
  intro len
  induction len with
  | zero =>
    intro a
    simp only [List.range'_zero, wideChunks, true_iff]
    intro k h1 h2
    omega
  | succ n ih =>
    intro a
    rw [List.range'_succ]
    unfold wideChunks
    cases hr : R.ReadBar01 8 (d.offset + a * 8) (stateAfterChunks R d a s) with
    | mk res s1 =>
      have hs1 : stateAfterChunks R d (a + 1) s = s1 := by
        simp only [stateAfterChunks, hr]
      cases res with
      | none =>
        simp only [reduceCtorEq, false_iff]
        intro h
        obtain ⟨v, hv, _⟩ := h a (Nat.le_refl a) (by omega)
        rw [hr] at hv
        simp at hv
      | some value =>
        cases hc : checkROValue ws d (value % 18446744073709551616) with
        | some e =>
          simp only [hc, reduceCtorEq, false_iff]
          intro h
          obtain ⟨v, hv, hv2⟩ := h a (Nat.le_refl a) (by omega)
          rw [hr] at hv
          simp only [Option.some.injEq] at hv
          subst hv
          rw [hc] at hv2
          simp at hv2
        | none =>
          simp only [hc]
          rw [← hs1, ih (a + 1)]
          constructor
          · intro h k h1 h2
            by_cases e : k = a
            · subst e
              exact ⟨value, by rw [hr], hc⟩
            · exact h k (by omega) (by omega)
          · intro h k h1 h2
            exact h k (by omega) (by omega)

end AllCtrlRegs

/-- C14, as stated, fails: a 16-byte register whose low byte is read-only with default
`0x01` (all three descriptor fields are 64-bit values, so their slice `1` is `0`), on a
device whose chunk `0` reads `0x01` and whose chunk `1` reads `0`.  Each chunk matches its
own slice of the descriptor, and yet the check throws, because chunk `1` is compared
against the same `maskRO = 0xFF` and `dfltValue = 0x01` as chunk `0`. -/
theorem second_chunk_checked_against_first_slice :
    (wideDefs.ctlMetrics 0).size > wideDefs.MAX_SUPPORTED_REG_SIZE ∧
    chunkMatchesSlice (wideDefs.ctlMetrics 0) 0 1 = true ∧
    chunkMatchesSlice (wideDefs.ctlMetrics 0) 1 0 = true ∧
    (ValidateCtlRegisterROAttribute (fun _ => 0) wideDefs
        (chunkRegisters (fun offset => if offset = 0 then 1 else 0)) 0 ()).result
      = .error .exception ∧
    (ValidateCtlRegisterROAttribute (fun _ => 0) wideDefs
        (traced (chunkRegisters (fun offset => if offset = 0 then 1 else 0))) 0 ((), [])).dev.2
      = [Op.readBar01 8 0 (some 1), Op.readBar01 8 8 (some 0)] := by
  refine ⟨by decide, by decide, by decide, rfl, rfl⟩

/-- C14, amended: for a wide register (`size > MAX_SUPPORTED_REG_SIZE`) the check returns
normally exactly when, for every `k` with `k * 8 < size`, the chunk read at
`offset + k * 8` succeeds and its value `v` satisfies
`((v & ~impSpec) & maskRO) == (dfltValue & maskRO)` with the same 64-bit `impSpec`,
`maskRO` and `dfltValue` of the descriptor for every chunk. -/
theorem wide_check_same_masks {σ : Type} (ws : Nat → Nat) (G : RegDefs) (R : Registers σ)
    (reg : Nat) (s : σ)
    (hwide : (G.ctlMetrics reg).size > G.MAX_SUPPORTED_REG_SIZE)
    (hmask : (G.ctlMetrics reg).maskRO < 18446744073709551616) :
    (ValidateCtlRegisterROAttribute ws G R reg s).result = .ok () ↔
      ∀ k, k * 8 < (G.ctlMetrics reg).size →
        ∃ v, (R.ReadBar01 8 ((G.ctlMetrics reg).offset + k * 8)
                (stateAfterChunks R (G.ctlMetrics reg) k s)).1 = some v ∧
          ((v &&& not64 (G.ctlMetrics reg).impSpec) &&& (G.ctlMetrics reg).maskRO)
            = ((G.ctlMetrics reg).dfltValue &&& (G.ctlMetrics reg).maskRO) := by
  unfold ValidateCtlRegisterROAttribute
  simp only [hwide, if_true]
  rw [List.range_eq_range']
  have h0 := wideChunks_ok_iff ws R (G.ctlMetrics reg) s (((G.ctlMetrics reg).size + 7) / 8) 0
  simp only [stateAfterChunks] at h0
  rw [h0]
  constructor
  · intro h k hk
    obtain ⟨v, hv, hc⟩ := h k (Nat.zero_le k) (by omega)
    exact ⟨v, hv, (checkROValue_mod_none_iff ws _ v hmask).mp hc⟩
  · intro h k _ hk
    obtain ⟨v, hv, hc⟩ := h k (by omega)
    exact ⟨v, hv, (checkROValue_mod_none_iff ws _ v hmask).mpr hc⟩

/-- C14, amended, on the 16-byte sample register with a device whose chunks all read
`0x01`: the check passes. -/
theorem wide_check_same_masks_witness :
    (ValidateCtlRegisterROAttribute (fun _ => 0) wideDefs (chunkRegisters (fun _ => 1)) 0
        ()).result = .ok () ∧
    ((ValidateCtlRegisterROAttribute (fun _ => 0) wideDefs (chunkRegisters (fun _ => 1)) 0
        ()).result = .ok () ↔
      ∀ k, k * 8 < (wideDefs.ctlMetrics 0).size →
        ∃ v, ((chunkRegisters (fun _ => 1)).ReadBar01 8 ((wideDefs.ctlMetrics 0).offset + k * 8)
                (stateAfterChunks (chunkRegisters (fun _ => 1)) (wideDefs.ctlMetrics 0) k
                  ())).1 = some v ∧
          ((v &&& not64 (wideDefs.ctlMetrics 0).impSpec) &&& (wideDefs.ctlMetrics 0).maskRO)
            = ((wideDefs.ctlMetrics 0).dfltValue &&& (wideDefs.ctlMetrics 0).maskRO)) :=
  ⟨rfl, wide_check_same_masks (fun _ => 0) wideDefs (chunkRegisters (fun _ => 1)) 0 ()
    (by decide) (by decide)⟩

namespace AllCtrlRegs

/-! ## Sequencing and the journal -/

/-- A run either returns or throws `exception()`. -/
theorem result_ok_or_exception (r : Except Thrown Unit) :
    r = .ok () ∨ r = .error .exception := by
  cases r with
  | ok u => exact Or.inl rfl
  | error e => cases e; exact Or.inr rfl

/-- An exception of the first statement is the outcome of the sequence. -/
theorem andThen_of_error {σ : Type} (o : Outcome σ) (next : σ → Outcome σ)
    (h : o.result = .error .exception) : o.andThen next = o := by
  unfold Outcome.andThen
  rw [h]

/-- After a first statement that returns, the sequence goes on with the second one. -/
theorem andThen_of_ok {σ : Type} (o : Outcome σ) (next : σ → Outcome σ)
    (h : o.result = .ok ()) :
    o.andThen next = ⟨(next o.dev).dev, o.errLog ++ (next o.dev).errLog, (next o.dev).result⟩ := by
  unfold Outcome.andThen
  rw [h]

/-- A sequence returns exactly when both statements return. -/
theorem andThen_result_ok_iff {σ : Type} (o : Outcome σ) (next : σ → Outcome σ) :
    (o.andThen next).result = .ok () ↔ o.result = .ok () ∧ (next o.dev).result = .ok () := by
  rcases result_ok_or_exception o.result with h | h
  · rw [andThen_of_ok o next h]
    simp [h]
  · rw [andThen_of_error o next h]
    simp [h]

/-- The journal is continued by nothing. -/
theorem OnlyAppends.refl (P : Op → Prop) (tr : List Op) : OnlyAppends P tr tr :=
  ⟨[], by simp, by simp⟩

/-- Continuations of the journal compose. -/
theorem OnlyAppends.trans {P : Op → Prop} {a b c : List Op}
    (h1 : OnlyAppends P a b) (h2 : OnlyAppends P b c) : OnlyAppends P a c := by
  obtain ⟨d1, rfl, p1⟩ := h1
  obtain ⟨d2, rfl, p2⟩ := h2
  refine ⟨d1 ++ d2, by rw [List.append_assoc], ?_⟩
  intro op hop
  rcases List.mem_append.mp hop with h | h
  · exact p1 op h
  · exact p2 op h

/-- One more call in the journal. -/
theorem OnlyAppends.snoc {P : Op → Prop} (tr : List Op) (op : Op) (h : P op) :
    OnlyAppends P tr (tr ++ [op]) :=
  ⟨[op], rfl, by intro x hx; simp only [List.mem_singleton] at hx; rw [hx]; exact h⟩

/-- A weaker property of the calls that are added. -/
theorem OnlyAppends.mono {P Q : Op → Prop} {a b : List Op} (hPQ : ∀ op, P op → Q op)
    (h : OnlyAppends P a b) : OnlyAppends Q a b := by
  obtain ⟨d, e, p⟩ := h
  exact ⟨d, e, fun op hop => hPQ op (p op hop)⟩

/-- The journal of a sequence. -/
theorem andThen_appends {σ : Type} {P : Op → Prop} (tr : List Op)
    (o : Outcome (σ × List Op)) (next : σ × List Op → Outcome (σ × List Op))
    (h1 : OnlyAppends P tr o.dev.2) (h2 : ∀ st, OnlyAppends P st.2 (next st).dev.2) :
    OnlyAppends P tr (o.andThen next).dev.2 := by
  rcases result_ok_or_exception o.result with h | h
  · rw [andThen_of_ok o next h]
    exact h1.trans (h2 o.dev)
  · rw [andThen_of_error o next h]
    exact h1

/-- The chunk loop adds raw reads of the register's chunks to the journal. -/
theorem wideChunks_appends {σ : Type} (ws : Nat → Nat) (R : Registers σ) (d : CtlSpcType) :
    ∀ (ks : List Nat) (st : σ × List Op),
      OnlyAppends (fun op => ∃ k res, op = Op.readBar01 8 (d.offset + k * 8) res) st.2
        (wideChunks ws (traced R) d ks st).dev.2 := by
  intro ks
  induction ks with
  | nil => intro st; exact OnlyAppends.refl _ _
  | cons k ks ih =>
    intro st
    unfold wideChunks
    simp only [traced]
    have step : OnlyAppends (fun op => ∃ k res, op = Op.readBar01 8 (d.offset + k * 8) res)
        st.2 (st.2 ++ [Op.readBar01 8 (d.offset + k * 8)
          (R.ReadBar01 8 (d.offset + k * 8) st.1).1]) :=
      OnlyAppends.snoc _ _ ⟨k, _, rfl⟩
    cases hres : (R.ReadBar01 8 (d.offset + k * 8) st.1).1 with
    | none => rw [hres] at step; exact step
    | some value =>
      rw [hres] at step
      simp only
      cases hc : checkROValue ws d (value % 18446744073709551616) with
      | some e => exact step
      | none => exact step.trans (ih _)

/-- The single-register check adds reads only to the journal: reads of the register
itself or raw reads of its chunks. -/
theorem ValidateCtlRegisterROAttribute_appends {σ : Type} (ws : Nat → Nat) (G : RegDefs)
    (R : Registers σ) (reg : Nat) (st : σ × List Op) :
    OnlyAppends
      (fun op => (∃ res, op = Op.read reg res) ∨
        ∃ k res, op = Op.readBar01 8 ((G.ctlMetrics reg).offset + k * 8) res)
      st.2 (ValidateCtlRegisterROAttribute ws G (traced R) reg st).dev.2 := by
  unfold ValidateCtlRegisterROAttribute
  split
  · exact (wideChunks_appends ws R (G.ctlMetrics reg) _ st).mono (fun op h => Or.inr h)
  · simp only [traced]
    have step : OnlyAppends
        (fun op => (∃ res, op = Op.read reg res) ∨
          ∃ k res, op = Op.readBar01 8 ((G.ctlMetrics reg).offset + k * 8) res)
        st.2 (st.2 ++ [Op.read reg (R.Read reg st.1).1]) :=
      OnlyAppends.snoc _ _ (Or.inl ⟨_, rfl⟩)
    cases hres : (R.Read reg st.1).1 with
    | none => rw [hres] at step; exact step
    | some value =>
      rw [hres] at step
      simp only
      cases hc : checkROValue ws (G.ctlMetrics reg) (value % 18446744073709551616) with
      | some e => exact step
      | none => exact step

end AllCtrlRegs

namespace AllCtrlRegs

/-! ## The pass over the default values -/

/-- Sequencing is associative. -/
theorem andThen_assoc {σ : Type} (o : Outcome σ) (f g : σ → Outcome σ) :
    (o.andThen f).andThen g = o.andThen (fun s => (f s).andThen g) := by
  rcases result_ok_or_exception o.result with h | h
  · rcases result_ok_or_exception (f o.dev).result with h2 | h2
    · simp only [Outcome.andThen, h, h2, List.append_assoc]
    · simp only [Outcome.andThen, h, h2]
  · simp only [Outcome.andThen, h]

/-- A statement that does nothing, followed by another one. -/
theorem skip_andThen {σ : Type} (s : σ) (next : σ → Outcome σ) :
    (Outcome.mk s [] (.ok ())).andThen next = next s := by
  rw [andThen_of_ok _ next rfl]
  simp

/-- The pass over a concatenation of register lists is the pass over the first list
followed by the pass over the second one. -/
theorem defaultValuesLoop_append {σ : Type} (ws : Nat → Nat) (G : RegDefs) (R : Registers σ)
    (rev : Nat) : ∀ (l1 l2 : List Nat) (s : σ),
      defaultValuesLoop ws G R rev (l1 ++ l2) s =
        (defaultValuesLoop ws G R rev l1 s).andThen (defaultValuesLoop ws G R rev l2) := by
  intro l1
  induction l1 with
  | nil =>
    intro l2 s
    simp only [List.nil_append, defaultValuesLoop]
    rw [skip_andThen]
  | cons j js ih =>
    intro l2 s
    simp only [List.cons_append, defaultValuesLoop]
    split
    · exact ih l2 s
    · rw [andThen_assoc]
      congr 1
      funext s1
      exact ih l2 s1

/-- The pass reads applicable registers only: every call it adds to the journal is a read
of an applicable register of the list or a raw read of one of its chunks. -/
theorem defaultValuesLoop_appends {σ : Type} (ws : Nat → Nat) (G : RegDefs) (R : Registers σ)
    (rev : Nat) : ∀ (js : List Nat) (st : σ × List Op),
      OnlyAppends
        (fun op => ∃ reg, reg ∈ js ∧ (G.ctlMetrics reg).specRev = rev ∧
          ((∃ res, op = Op.read reg res) ∨
            ∃ k res, op = Op.readBar01 8 ((G.ctlMetrics reg).offset + k * 8) res))
        st.2 (defaultValuesLoop ws G (traced R) rev js st).dev.2 := by
  intro js
  induction js with
  | nil => intro st; exact OnlyAppends.refl _ _
  | cons j js ih =>
    intro st
    have tail : ∀ st1 : σ × List Op, OnlyAppends
        (fun op => ∃ reg, reg ∈ j :: js ∧ (G.ctlMetrics reg).specRev = rev ∧
          ((∃ res, op = Op.read reg res) ∨
            ∃ k res, op = Op.readBar01 8 ((G.ctlMetrics reg).offset + k * 8) res))
        st1.2 (defaultValuesLoop ws G (traced R) rev js st1).dev.2 := fun st1 =>
      (ih st1).mono (fun op ⟨reg, h1, h2⟩ => ⟨reg, List.mem_cons_of_mem _ h1, h2⟩)
    simp only [defaultValuesLoop]
    split
    · exact tail st
    · rename_i happ
      have happ2 : (G.ctlMetrics j).specRev = rev := by simpa using happ
      refine andThen_appends st.2 _ _ ?_ tail
      exact (ValidateCtlRegisterROAttribute_appends ws G R j st).mono
        (fun op h => ⟨j, List.mem_cons_self _ _, happ2, h⟩)

/-- The pass over `0 .. n - 1` returns exactly when every applicable register passes its
check in the state in which the pass reaches it. -/
theorem defaultValuesLoop_range_ok_iff {σ : Type} (ws : Nat → Nat) (G : RegDefs)
    (R : Registers σ) (rev : Nat) (s : σ) :
    ∀ n, (defaultValuesLoop ws G R rev (List.range n) s).result = .ok () ↔
      ∀ j, j < n → (G.ctlMetrics j).specRev = rev →
        (ValidateCtlRegisterROAttribute ws G R j
          (defaultValuesLoop ws G R rev (List.range j) s).dev).result = .ok () := by
  intro n
  induction n with
  | zero =>
    simp only [List.range_zero, defaultValuesLoop, true_iff]
    intro j hj
    omega
  | succ n ih =>
    rw [List.range_succ, defaultValuesLoop_append, andThen_result_ok_iff, ih]
    have last : (defaultValuesLoop ws G R rev [n]
          (defaultValuesLoop ws G R rev (List.range n) s).dev).result = .ok () ↔
        ((G.ctlMetrics n).specRev = rev →
          (ValidateCtlRegisterROAttribute ws G R n
            (defaultValuesLoop ws G R rev (List.range n) s).dev).result = .ok ()) := by
      simp only [defaultValuesLoop]
      split
      · rename_i hskip
        have : (G.ctlMetrics n).specRev ≠ rev := by simpa using hskip
        simp [this]
      · rename_i happ
        have : (G.ctlMetrics n).specRev = rev := by simpa using happ
        rw [andThen_result_ok_iff]
        simp [this]
    rw [last]
    constructor
    · rintro ⟨h1, h2⟩ j hj hrev
      by_cases e : j = n
      · subst e; exact h2 hrev
      · exact h1 j (by omega) hrev
    · intro h
      exact ⟨fun j hj hrev => h j (by omega) hrev, fun hrev => h n (by omega) hrev⟩

end AllCtrlRegs

namespace AllCtrlRegs

/-- On a transport whose raw reads leave the device state alone, so does the chunk
loop. -/
theorem wideChunks_dev_pure {σ : Type} (ws : Nat → Nat) (R : Registers σ) (d : CtlSpcType)
    (hbar : ∀ len offset s, (R.ReadBar01 len offset s).2 = s) :
    ∀ (ks : List Nat) (s : σ), (wideChunks ws R d ks s).dev = s := by
  intro ks
  induction ks with
  | nil => intro s; rfl
  | cons k ks ih =>
    intro s
    unfold wideChunks
    have h2 := hbar 8 (d.offset + k * 8) s
    cases hr : R.ReadBar01 8 (d.offset + k * 8) s with
    | mk res s1 =>
      rw [hr] at h2
      simp only at h2
      subst h2
      cases res with
      | none => rfl
      | some value =>
        simp only
        cases hc : checkROValue ws d (value % 18446744073709551616) with
        | some e => rfl
        | none => exact ih _

/-- On a transport whose reads leave the device state alone, so does the single-register
check. -/
theorem ValidateCtlRegisterROAttribute_dev_pure {σ : Type} (ws : Nat → Nat) (G : RegDefs)
    (R : Registers σ) (reg : Nat) (s : σ)
    (hread : ∀ reg s, (R.Read reg s).2 = s)
    (hbar : ∀ len offset s, (R.ReadBar01 len offset s).2 = s) :
    (ValidateCtlRegisterROAttribute ws G R reg s).dev = s := by
  unfold ValidateCtlRegisterROAttribute
  split
  · exact wideChunks_dev_pure ws R _ hbar _ s
  · have h2 := hread reg s
    cases hr : R.Read reg s with
    | mk res s1 =>
      rw [hr] at h2
      simp only at h2
      subst h2
      cases res with
      | none => rfl
      | some value =>
        simp only
        cases hc : checkROValue ws (G.ctlMetrics reg) (value % 18446744073709551616) with
        | some e => rfl
        | none => rfl

/-- On a transport whose reads leave the device state alone, so does the pass over the
default values. -/
theorem defaultValuesLoop_dev_pure {σ : Type} (ws : Nat → Nat) (G : RegDefs)
    (R : Registers σ) (rev : Nat)
    (hread : ∀ reg s, (R.Read reg s).2 = s)
    (hbar : ∀ len offset s, (R.ReadBar01 len offset s).2 = s) :
    ∀ (js : List Nat) (s : σ), (defaultValuesLoop ws G R rev js s).dev = s := by
  intro js
  induction js with
  | nil => intro s; rfl
  | cons j js ih =>
    intro s
    simp only [defaultValuesLoop]
    split
    · exact ih s
    · have hv := ValidateCtlRegisterROAttribute_dev_pure ws G R j s hread hbar
      rcases result_ok_or_exception (ValidateCtlRegisterROAttribute ws G R j s).result
        with h | h
      · rw [andThen_of_ok _ _ h]
        simp only [hv]
        exact ih s
      · rw [andThen_of_error _ _ h]
        exact hv

end AllCtrlRegs

/-- C16: `ValidateDefaultValues` adds no write to the journal of transport calls; and on a
transport whose reads do not change the device state, it leaves the state as it was, so
that a pass that returns normally is followed by a pass on the resulting state that
returns normally as well. -/
theorem defaults_pass_idempotent {σ : Type} (ws : Nat → Nat) (G : RegDefs) (R : Registers σ)
    (rev : Nat) (s : σ)
    (hread : ∀ reg s, (R.Read reg s).2 = s)
    (hbar : ∀ len offset s, (R.ReadBar01 len offset s).2 = s) :
    (∀ tr, OnlyAppends (fun op => op.isWrite = false) tr
      (ValidateDefaultValues ws G (traced R) rev (s, tr)).dev.2) ∧
    (ValidateDefaultValues ws G R rev s).dev = s ∧
    ((ValidateDefaultValues ws G R rev s).result = .ok () →
      (ValidateDefaultValues ws G R rev (ValidateDefaultValues ws G R rev s).dev).result
        = .ok ()) := by
  have hdev : (ValidateDefaultValues ws G R rev s).dev = s :=
    defaultValuesLoop_dev_pure ws G R rev hread hbar _ s
  refine ⟨?_, hdev, ?_⟩
  · intro tr
    refine (defaultValuesLoop_appends ws G R rev (List.range G.CTLSPC_FENCE) (s, tr)).mono ?_
    rintro op ⟨reg, _, _, ⟨res, rfl⟩ | ⟨k, res, rfl⟩⟩ <;> rfl
  · intro h
    rw [hdev]
    exact h

/-- C16, on the sample table with a device that reads `0x00000200` everywhere: the pass
returns normally, and so does the pass that follows it. -/
theorem defaults_pass_idempotent_witness :
    (ValidateDefaultValues (fun _ => 0) sampleDefs (constRegisters 512) 1 ()).result = .ok () ∧
    ((∀ tr, OnlyAppends (fun op => op.isWrite = false) tr
      (ValidateDefaultValues (fun _ => 0) sampleDefs (traced (constRegisters 512)) 1
        ((), tr)).dev.2) ∧
    (ValidateDefaultValues (fun _ => 0) sampleDefs (constRegisters 512) 1 ()).dev = () ∧
    ((ValidateDefaultValues (fun _ => 0) sampleDefs (constRegisters 512) 1 ()).result = .ok () →
      (ValidateDefaultValues (fun _ => 0) sampleDefs (constRegisters 512) 1
        (ValidateDefaultValues (fun _ => 0) sampleDefs (constRegisters 512) 1 ()).dev).result
        = .ok ())) :=
  ⟨rfl, defaults_pass_idempotent (fun _ => 0) sampleDefs (constRegisters 512) 1 ()
    (fun _ _ => rfl) (fun _ _ _ => rfl)⟩

namespace AllCtrlRegs

/-! ## The probes -/

/-- The first probe write on a compliant device stores the old value. -/
theorem compliant_store_or (f m : Nat) (hf : f < 18446744073709551616) :
    (f &&& m) ||| ((f % 18446744073709551616 ||| m) &&& not64 m) = f := by
  rw [Nat.mod_eq_of_lt hf]
  apply Nat.eq_of_testBit_eq
  intro i
  simp only [Nat.testBit_or, Nat.testBit_and, testBit_not64]
  cases hfi : f.testBit i with
  | false => cases m.testBit i <;> simp
  | true =>
    have h64 := lt64_of_testBit hf hfi
    cases m.testBit i <;> simp [h64]

/-- The second probe write on a compliant device stores the old value. -/
theorem compliant_store_and (f m : Nat) (hf : f < 18446744073709551616) :
    (f &&& m) ||| ((f % 18446744073709551616 &&& not64 m) &&& not64 m) = f := by
  rw [Nat.mod_eq_of_lt hf]
  apply Nat.eq_of_testBit_eq
  intro i
  simp only [Nat.testBit_or, Nat.testBit_and, testBit_not64]
  cases hfi : f.testBit i with
  | false => cases m.testBit i <;> simp
  | true =>
    have h64 := lt64_of_testBit hf hfi
    cases m.testBit i <;> simp [h64]

/-- A native-width check that returns has read the register and found its value to
match. -/
theorem native_ok_read {σ : Type} (ws : Nat → Nat) (G : RegDefs) (R : Registers σ)
    (reg : Nat) (s : σ) (hnative : (G.ctlMetrics reg).size ≤ G.MAX_SUPPORTED_REG_SIZE)
    (hok : (ValidateCtlRegisterROAttribute ws G R reg s).result = .ok ()) :
    ∃ x s1, R.Read reg s = (some x, s1) ∧
      checkROValue ws (G.ctlMetrics reg) (x % 18446744073709551616) = none ∧
      (ValidateCtlRegisterROAttribute ws G R reg s).dev = s1 := by
  have hns : ¬ (G.ctlMetrics reg).size > G.MAX_SUPPORTED_REG_SIZE := by omega
  unfold ValidateCtlRegisterROAttribute at hok ⊢
  simp only [hns, if_false] at hok ⊢
  cases hr : R.Read reg s with
  | mk res s1 =>
    rw [hr] at hok
    cases res with
    | none => simp at hok
    | some x =>
      simp only at hok
      cases hc : checkROValue ws (G.ctlMetrics reg) (x % 18446744073709551616) with
      | some e => rw [hc] at hok; simp at hok
      | none =>
        refine ⟨x, s1, rfl, hc, ?_⟩
        simp only [hc]

/-- On the compliant device the check does not change the register file. -/
theorem compliant_check_dev (ws : Nat → Nat) (G : RegDefs) (j : Nat) (file : Nat → Nat) :
    (ValidateCtlRegisterROAttribute ws G (compliantDevice G) j file).dev = file :=
  ValidateCtlRegisterROAttribute_dev_pure ws G (compliantDevice G) j file
    (fun _ _ => rfl) (fun _ _ _ => rfl)

/-- What `Read` does on the compliant device. -/
theorem compliant_Read (G : RegDefs) (reg : Nat) (file : Nat → Nat) :
    (compliantDevice G).Read reg file = (some (file reg), file) := rfl

/-- What `Write` does on the compliant device. -/
theorem compliant_Write (G : RegDefs) (reg value : Nat) (file : Nat → Nat) :
    (compliantDevice G).Write reg value file =
      (true, Function.update file reg
        ((file reg &&& (G.ctlMetrics reg).maskRO)
          ||| (value &&& not64 (G.ctlMetrics reg).maskRO))) := rfl

/-- On the compliant device, the two probes of a register whose check passes return
normally and leave the register file as it was. -/
theorem probeRegister_compliant (ws : Nat → Nat) (G : RegDefs) (j : Nat) (file : Nat → Nat)
    (hfile : file j < 18446744073709551616)
    (hok : (ValidateCtlRegisterROAttribute ws G (compliantDevice G) j file).result = .ok ()) :
    (probeRegister ws G (compliantDevice G) j file).result = .ok () ∧
    (probeRegister ws G (compliantDevice G) j file).dev = file := by
  have hdev := compliant_check_dev ws G j file
  have e1 : Function.update file j
      ((file j &&& (G.ctlMetrics j).maskRO) |||
        ((file j % 18446744073709551616 ||| (G.ctlMetrics j).maskRO)
          &&& not64 (G.ctlMetrics j).maskRO)) = file := by
    rw [compliant_store_or _ _ hfile, Function.update_eq_self]
  have e2 : Function.update file j
      ((file j &&& (G.ctlMetrics j).maskRO) |||
        ((file j % 18446744073709551616 &&& not64 (G.ctlMetrics j).maskRO)
          &&& not64 (G.ctlMetrics j).maskRO)) = file := by
    rw [compliant_store_and _ _ hfile, Function.update_eq_self]
  unfold probeRegister
  simp only [compliant_Read, compliant_Write, e1]
  rw [andThen_of_ok _ _ hok]
  simp only [hdev, compliant_Write, e2, hok, and_self]

/-- On the compliant device, the probe pass over registers whose checks pass returns
normally and leaves the register file as it was. -/
theorem roBitsLoop_compliant (ws : Nat → Nat) (G : RegDefs) (rev : Nat) (file : Nat → Nat)
    (hfile : ∀ j, file j < 18446744073709551616) :
    ∀ js : List Nat,
      (∀ j ∈ js, (G.ctlMetrics j).specRev = rev →
        (ValidateCtlRegisterROAttribute ws G (compliantDevice G) j file).result = .ok ()) →
      (roBitsLoop ws G (compliantDevice G) rev js file).result = .ok () ∧
      (roBitsLoop ws G (compliantDevice G) rev js file).dev = file := by
  intro js
  induction js with
  | nil => intro _; exact ⟨rfl, rfl⟩
  | cons j js ih =>
    intro h
    have ih2 := ih (fun j1 hj1 => h j1 (List.mem_cons_of_mem _ hj1))
    simp only [roBitsLoop]
    split
    · exact ih2
    · rename_i happ
      have happ2 : (G.ctlMetrics j).specRev = rev := by simpa using happ
      split
      · exact ih2
      · obtain ⟨p1, p2⟩ := probeRegister_compliant ws G j file (hfile j)
          (h j (List.mem_cons_self _ _) happ2)
        rw [andThen_of_ok _ _ p1]
        simp only [p2]
        exact ih2

end AllCtrlRegs

/-- C17: on the compliant device model (registers read at native width only and holding
64-bit values, `Read` returning the stored value, `Write(reg, v)` storing
`(old & maskRO) | (v & ~maskRO)`), for every register file on which
`ValidateDefaultValues` returns normally, `ValidateROBitsAfterWriting` returns normally as
well and leaves the register file as it was. -/
theorem compliant_device_survives_probes (ws : Nat → Nat) (G : RegDefs) (rev : Nat)
    (file : Nat → Nat)
    (hfile : ∀ j, file j < 18446744073709551616)
    (hdefaults : (ValidateDefaultValues ws G (compliantDevice G) rev file).result = .ok ()) :
    (ValidateROBitsAfterWriting ws G (compliantDevice G) rev file).result = .ok () ∧
    (ValidateROBitsAfterWriting ws G (compliantDevice G) rev file).dev = file := by
  apply roBitsLoop_compliant ws G rev file hfile
  intro j hj hrev
  have h := (defaultValuesLoop_range_ok_iff ws G (compliantDevice G) rev file
    G.CTLSPC_FENCE).mp hdefaults j (List.mem_range.mp hj) hrev
  rw [defaultValuesLoop_dev_pure ws G (compliantDevice G) rev (fun _ _ => rfl)
    (fun _ _ _ => rfl)] at h
  exact h

/-- C17, on a table of two registers with a register file that holds the default
`0x00000200` everywhere. -/
theorem compliant_device_survives_probes_witness :
    (ValidateDefaultValues (fun _ => 0) pairDefs (compliantDevice pairDefs) 1
        (fun _ => 512)).result = .ok () ∧
    (ValidateROBitsAfterWriting (fun _ => 0) pairDefs (compliantDevice pairDefs) 1
        (fun _ => 512)).result = .ok () ∧
    (ValidateROBitsAfterWriting (fun _ => 0) pairDefs (compliantDevice pairDefs) 1
        (fun _ => 512)).dev = (fun _ => 512) :=
  ⟨rfl, compliant_device_survives_probes (fun _ => 0) pairDefs 1 (fun _ => 512)
    (fun _ => (by decide : (512 : Nat) < 18446744073709551616)) rfl⟩

namespace AllCtrlRegs

/-- A value that passes the check has the default at every checked bit. -/
theorem check_pass_bit (ws : Nat → Nat) (d : CtlSpcType) (x b : Nat) (hb : b < 64)
    (hmask : d.maskRO.testBit b = true) (himp : d.impSpec.testBit b = false)
    (hc : checkROValue ws d (x % 18446744073709551616) = none) :
    d.dfltValue.testBit b = x.testBit b := by
  have e64 : (18446744073709551616 : Nat) = 2 ^ 64 := by norm_num
  have h := (checkROValue_none_iff ws d _).mp hc
  have h2 := congrArg (fun y => y.testBit b) h
  rw [e64] at h2
  simp only [Nat.testBit_mod_two_pow, Nat.testBit_and, testBit_not64, hb, decide_True,
    Bool.true_and, hmask, himp, Bool.not_false, Bool.and_true] at h2
  exact h2.symm

/-- The probes of a register with a writable checked bit cannot both pass: the first
needs the default of the bit to be `1`, the second needs it to be `0`. -/
theorem probeRegister_writable_bit {σ : Type} (ws : Nat → Nat) (G : RegDefs)
    (R : Registers σ) (r b : Nat) (s : σ)
    (hnative : (G.ctlMetrics r).size ≤ G.MAX_SUPPORTED_REG_SIZE)
    (hb : b < 64) (hmask : (G.ctlMetrics r).maskRO.testBit b = true)
    (himp : (G.ctlMetrics r).impSpec.testBit b = false)
    (hdev : ∀ val s0 s1, R.Write r val s0 = (true, s1) →
      ∀ x s2, R.Read r s1 = (some x, s2) → x.testBit b = val.testBit b) :
    (probeRegister ws G R r s).result = .error .exception := by
  rcases result_ok_or_exception (probeRegister ws G R r s).result with hok | herr
  · exfalso
    unfold probeRegister at hok
    cases hr : R.Read r s with
    | mk res s1 =>
      rw [hr] at hok
      cases res with
      | none => simp at hok
      | some orig =>
        simp only at hok
        cases hw : R.Write r
            (orig % 18446744073709551616 ||| (G.ctlMetrics r).maskRO) s1 with
        | mk ok1 s2 =>
          rw [hw] at hok
          cases ok1 with
          | false => simp at hok
          | true =>
            simp only at hok
            rw [andThen_result_ok_iff] at hok
            obtain ⟨hc1, hrest⟩ := hok
            obtain ⟨x1, s3, hr1, hp1, hd1⟩ := native_ok_read ws G R r s2 hnative hc1
            have b1 := check_pass_bit ws _ x1 b hb hmask himp hp1
            rw [hdev _ _ _ hw x1 s3 hr1] at b1
            simp only [Nat.testBit_or, hmask, Bool.or_true] at b1
            rw [hd1] at hrest
            cases hw2 : R.Write r
                (orig % 18446744073709551616 &&& not64 (G.ctlMetrics r).maskRO) s3 with
            | mk ok2 s4 =>
              rw [hw2] at hrest
              cases ok2 with
              | false => simp at hrest
              | true =>
                simp only at hrest
                obtain ⟨x2, s5, hr2, hp2, _⟩ := native_ok_read ws G R r s4 hnative hrest
                have b2 := check_pass_bit ws _ x2 b hb hmask himp hp2
                rw [hdev _ _ _ hw2 x2 s5 hr2] at b2
                simp only [Nat.testBit_and, testBit_not64, hmask, Bool.not_true,
                  Bool.and_false] at b2
                rw [b1] at b2
                exact Bool.noConfusion b2
  · exact herr

/-- The probe pass throws when it is run over a list that contains a probed register
with a writable checked bit. -/
theorem roBitsLoop_writable_bit {σ : Type} (ws : Nat → Nat) (G : RegDefs)
    (R : Registers σ) (rev r b : Nat)
    (happ : (G.ctlMetrics r).specRev = rev)
    (hres : r ≠ G.CTLSPC_RES1 ∧ r ≠ G.CTLSPC_RES2 ∧ r ≠ G.CTLSPC_RES3)
    (hnative : (G.ctlMetrics r).size ≤ G.MAX_SUPPORTED_REG_SIZE)
    (hb : b < 64) (hmask : (G.ctlMetrics r).maskRO.testBit b = true)
    (himp : (G.ctlMetrics r).impSpec.testBit b = false)
    (hdev : ∀ val s0 s1, R.Write r val s0 = (true, s1) →
      ∀ x s2, R.Read r s1 = (some x, s2) → x.testBit b = val.testBit b) :
    ∀ (js : List Nat), r ∈ js → ∀ s : σ,
      (roBitsLoop ws G R rev js s).result = .error .exception := by
  intro js
  induction js with
  | nil => intro h; simp at h
  | cons j js ih =>
    intro hmem s
    simp only [roBitsLoop]
    split
    · rename_i hskip
      have hne : (G.ctlMetrics j).specRev ≠ rev := by simpa using hskip
      have : r ≠ j := by intro e; subst e; exact hne happ
      exact ih (by simpa [this] using hmem) s
    · split
      · rename_i hskip
        have : r ≠ j := by
          intro e
          subst e
          simp only [Bool.or_eq_true, beq_iff_eq] at hskip
          rcases hskip with (h | h) | h
          · exact hres.1 h
          · exact hres.2.1 h
          · exact hres.2.2 h
        exact ih (by simpa [this] using hmem) s
      · rcases result_ok_or_exception (probeRegister ws G R j s).result with hok | herr
        · have : r ≠ j := by
            intro e
            subst e
            rw [probeRegister_writable_bit ws G R r b s hnative hb hmask himp hdev] at hok
            simp at hok
          rw [andThen_of_ok _ _ hok]
          exact ih (by simpa [this] using hmem) _
        · rw [andThen_of_error _ _ herr]
          exact herr

end AllCtrlRegs

/-- C18: if an applicable, non-reserved, native-width register `r < CTLSPC_FENCE` has a
bit `b < 64` in its effective checked set (`maskRO` has it, `impSpec` does not) that the
device lets software change (a read of `r` after a successful write of `v` to `r` shows
bit `b` of `v`), then `ValidateROBitsAfterWriting` throws, whatever the default value and
the initial device state are. -/
theorem writable_checked_bit_is_detected {σ : Type} (ws : Nat → Nat) (G : RegDefs)
    (R : Registers σ) (rev r b : Nat) (s : σ)
    (hr : r < G.CTLSPC_FENCE)
    (happ : (G.ctlMetrics r).specRev = rev)
    (hres : r ≠ G.CTLSPC_RES1 ∧ r ≠ G.CTLSPC_RES2 ∧ r ≠ G.CTLSPC_RES3)
    (hnative : (G.ctlMetrics r).size ≤ G.MAX_SUPPORTED_REG_SIZE)
    (hb : b < 64) (hmask : (G.ctlMetrics r).maskRO.testBit b = true)
    (himp : (G.ctlMetrics r).impSpec.testBit b = false)
    (hdev : ∀ val s0 s1, R.Write r val s0 = (true, s1) →
      ∀ x s2, R.Read r s1 = (some x, s2) → x.testBit b = val.testBit b) :
    (ValidateROBitsAfterWriting ws G R rev s).result = .error .exception :=
  roBitsLoop_writable_bit ws G R rev r b happ hres hnative hb hmask himp hdev
    (List.range G.CTLSPC_FENCE) (List.mem_range.mpr hr) s

/-- C18, on a table of two registers with a device that stores whatever is written:
bit `0` of register `0` is read-only by the table and writable on the device. -/
theorem writable_checked_bit_is_detected_witness :
    (ValidateROBitsAfterWriting (fun _ => 0) pairDefs writableDevice 1
      (fun _ => 512)).result = .error .exception :=
  writable_checked_bit_is_detected (fun _ => 0) pairDefs writableDevice 1 0 0 (fun _ => 512)
    (by decide) (by decide) (by decide) (by decide) (by decide) (by decide) (by decide)
    (by
      intro val s0 s1 hw x s2 hrd
      simp only [writableDevice, Prod.mk.injEq, true_and] at hw hrd
      subst hw
      simp only [Function.update_same, Option.some.injEq] at hrd
      rw [← hrd.1])

namespace AllCtrlRegs

/-! ## The journal of the probe pass -/

/-- What `Read` does on the journalled transport. -/
theorem traced_Read {σ : Type} (R : Registers σ) (reg : Nat) (st : σ × List Op) :
    (traced R).Read reg st =
      ((R.Read reg st.1).1, ((R.Read reg st.1).2, st.2 ++ [Op.read reg (R.Read reg st.1).1])) :=
  rfl

/-- What `Write` does on the journalled transport. -/
theorem traced_Write {σ : Type} (R : Registers σ) (reg value : Nat) (st : σ × List Op) :
    (traced R).Write reg value st =
      ((R.Write reg value st.1).1,
        ((R.Write reg value st.1).2,
          st.2 ++ [Op.write reg value (R.Write reg value st.1).1])) :=
  rfl

/-- The probes of register `j` add to the journal reads and writes of `j` and raw reads of
its chunks only. -/
theorem probeRegister_appends {σ : Type} (ws : Nat → Nat) (G : RegDefs) (R : Registers σ)
    (j : Nat) (st : σ × List Op) :
    OnlyAppends
      (fun op => (∃ res, op = Op.read j res) ∨ (∃ value ok, op = Op.write j value ok) ∨
        ∃ k res, op = Op.readBar01 8 ((G.ctlMetrics j).offset + k * 8) res)
      st.2 (probeRegister ws G (traced R) j st).dev.2 := by
  have check : ∀ st1 : σ × List Op, OnlyAppends
      (fun op => (∃ res, op = Op.read j res) ∨ (∃ value ok, op = Op.write j value ok) ∨
        ∃ k res, op = Op.readBar01 8 ((G.ctlMetrics j).offset + k * 8) res)
      st1.2 (ValidateCtlRegisterROAttribute ws G (traced R) j st1).dev.2 := fun st1 =>
    (ValidateCtlRegisterROAttribute_appends ws G R j st1).mono (fun op h => by
      rcases h with h | h
      · exact Or.inl h
      · exact Or.inr (Or.inr h))
  have rd : ∀ (tr : List Op) (res : Option Nat), OnlyAppends
      (fun op => (∃ res, op = Op.read j res) ∨ (∃ value ok, op = Op.write j value ok) ∨
        ∃ k res, op = Op.readBar01 8 ((G.ctlMetrics j).offset + k * 8) res)
      tr (tr ++ [Op.read j res]) := fun tr res => OnlyAppends.snoc _ _ (Or.inl ⟨_, rfl⟩)
  have wr : ∀ (tr : List Op) (value : Nat) (ok : Bool), OnlyAppends
      (fun op => (∃ res, op = Op.read j res) ∨ (∃ value ok, op = Op.write j value ok) ∨
        ∃ k res, op = Op.readBar01 8 ((G.ctlMetrics j).offset + k * 8) res)
      tr (tr ++ [Op.write j value ok]) :=
    fun tr value ok => OnlyAppends.snoc _ _ (Or.inr (Or.inl ⟨_, _, rfl⟩))
  unfold probeRegister
  simp only [traced_Read]
  cases hres : (R.Read j st.1).1 with
  | none => exact rd _ _
  | some orig =>
    simp only [traced_Write]
    cases hw : (R.Write j (orig % 18446744073709551616 ||| (G.ctlMetrics j).maskRO)
        (R.Read j st.1).2).1 with
    | false => exact (rd _ _).trans (wr _ _ _)
    | true =>
      simp only
      refine andThen_appends st.2 _ _ (((rd _ _).trans (wr _ _ _)).trans (check _)) ?_
      intro st3
      cases hw2 : (R.Write j (orig % 18446744073709551616 &&& not64 (G.ctlMetrics j).maskRO)
          st3.1).1 with
      | false => exact wr _ _ _
      | true => exact (wr _ _ _).trans (check _)

/-- The probe pass adds to the journal calls for probed registers only: applicable,
non-reserved registers of the list. -/
theorem roBitsLoop_appends {σ : Type} (ws : Nat → Nat) (G : RegDefs) (R : Registers σ)
    (rev : Nat) : ∀ (js : List Nat) (st : σ × List Op),
      OnlyAppends
        (fun op => ∃ reg, reg ∈ js ∧ (G.ctlMetrics reg).specRev = rev ∧
          (reg ≠ G.CTLSPC_RES1 ∧ reg ≠ G.CTLSPC_RES2 ∧ reg ≠ G.CTLSPC_RES3) ∧
          ((∃ res, op = Op.read reg res) ∨ (∃ value ok, op = Op.write reg value ok) ∨
            ∃ k res, op = Op.readBar01 8 ((G.ctlMetrics reg).offset + k * 8) res))
        st.2 (roBitsLoop ws G (traced R) rev js st).dev.2 := by
  intro js
  induction js with
  | nil => intro st; exact OnlyAppends.refl _ _
  | cons j js ih =>
    intro st
    have tail : ∀ st1 : σ × List Op, OnlyAppends
        (fun op => ∃ reg, reg ∈ j :: js ∧ (G.ctlMetrics reg).specRev = rev ∧
          (reg ≠ G.CTLSPC_RES1 ∧ reg ≠ G.CTLSPC_RES2 ∧ reg ≠ G.CTLSPC_RES3) ∧
          ((∃ res, op = Op.read reg res) ∨ (∃ value ok, op = Op.write reg value ok) ∨
            ∃ k res, op = Op.readBar01 8 ((G.ctlMetrics reg).offset + k * 8) res))
        st1.2 (roBitsLoop ws G (traced R) rev js st1).dev.2 := fun st1 =>
      (ih st1).mono (fun op ⟨reg, h1, h2⟩ => ⟨reg, List.mem_cons_of_mem _ h1, h2⟩)
    simp only [roBitsLoop]
    split
    · exact tail st
    · rename_i happ
      have happ2 : (G.ctlMetrics j).specRev = rev := by simpa using happ
      split
      · exact tail st
      · rename_i hres
        have hres2 : j ≠ G.CTLSPC_RES1 ∧ j ≠ G.CTLSPC_RES2 ∧ j ≠ G.CTLSPC_RES3 := by
          simp only [Bool.or_eq_true, beq_iff_eq, not_or] at hres
          exact ⟨hres.1.1, hres.1.2, hres.2⟩
        refine andThen_appends st.2 _ _ ?_ tail
        exact (probeRegister_appends ws G R j st).mono
          (fun op h => ⟨j, List.mem_cons_self _ _, happ2, hres2, h⟩)

end AllCtrlRegs

namespace AllCtrlRegs

/-- The probes of register `j` after a successful read of `v` and a successful first
write: the first check, and then the second write and the second check. -/
theorem probeRegister_traced_eq {σ : Type} (ws : Nat → Nat) (G : RegDefs) (R : Registers σ)
    (j : Nat) (s s1 s2 : σ) (tr : List Op) (v : Nat)
    (hr : R.Read j s = (some v, s1))
    (hw : R.Write j (v % 18446744073709551616 ||| (G.ctlMetrics j).maskRO) s1 = (true, s2)) :
    probeRegister ws G (traced R) j (s, tr) =
      (ValidateCtlRegisterROAttribute ws G (traced R) j
        (s2, tr ++ [Op.read j (some v),
          Op.write j (v % 18446744073709551616 ||| (G.ctlMetrics j).maskRO) true])).andThen
        fun st3 =>
          match (traced R).Write j
              (v % 18446744073709551616 &&& not64 (G.ctlMetrics j).maskRO) st3 with
          | (false, st4) => ⟨st4, [], .error .exception⟩
          | (true, st4) => ValidateCtlRegisterROAttribute ws G (traced R) j st4 := by
  unfold probeRegister
  simp only [traced_Read, hr, traced_Write, hw, List.append_assoc, List.singleton_append]
  congr 1
  funext st3
  cases (R.Write j (v % 18446744073709551616 &&& not64 (G.ctlMetrics j).maskRO) st3.1).1 <;> rfl

/-- The loop of the probe pass, when it comes to an applicable, non-reserved register,
runs the probes of that register and then goes on. -/
theorem roBitsLoop_cons_probed {σ : Type} (ws : Nat → Nat) (G : RegDefs) (R : Registers σ)
    (rev j : Nat) (js : List Nat) (s : σ)
    (happ : (G.ctlMetrics j).specRev = rev)
    (hres : j ≠ G.CTLSPC_RES1 ∧ j ≠ G.CTLSPC_RES2 ∧ j ≠ G.CTLSPC_RES3) :
    roBitsLoop ws G R rev (j :: js) s =
      (probeRegister ws G R j s).andThen (roBitsLoop ws G R rev js) := by
  simp [roBitsLoop, happ, hres.1, hres.2.1, hres.2.2]

/-- The single-register check adds no write to the journal. -/
theorem ValidateCtlRegisterROAttribute_no_write {σ : Type} (ws : Nat → Nat) (G : RegDefs)
    (R : Registers σ) (reg : Nat) (st : σ × List Op) :
    OnlyAppends (fun op => op.isWrite = false) st.2
      (ValidateCtlRegisterROAttribute ws G (traced R) reg st).dev.2 := by
  refine (ValidateCtlRegisterROAttribute_appends ws G R reg st).mono ?_
  rintro op (⟨res, rfl⟩ | ⟨k, res, rfl⟩) <;> rfl

end AllCtrlRegs

/-- The probes of one register on the journalled transport.  When the loop comes to an
applicable, non-reserved register `j`, it runs the probes of `j` and then goes on.  If the
probes return normally, the transport calls they made are, in this order: a read of `j`
yielding `v`, a write of `v | maskRO` to `j`, the calls of the single-register check
(reads only), a write of `v & ~maskRO` to `j`, and the calls of the check again (reads
only).  If the first check throws, the probes end with it; otherwise the outcome is that
of the second check. -/
theorem probeRegister_calls_in_order {σ : Type} (ws : Nat → Nat) (G : RegDefs)
    (R : Registers σ) (rev j : Nat) (js : List Nat) (s : σ) (tr : List Op)
    (happ : (G.ctlMetrics j).specRev = rev)
    (hres : j ≠ G.CTLSPC_RES1 ∧ j ≠ G.CTLSPC_RES2 ∧ j ≠ G.CTLSPC_RES3) :
    roBitsLoop ws G (traced R) rev (j :: js) (s, tr) =
      (probeRegister ws G (traced R) j (s, tr)).andThen
        (roBitsLoop ws G (traced R) rev js) ∧
    ((probeRegister ws G (traced R) j (s, tr)).result = .ok () →
      ∃ v checkCalls1 checkCalls2,
        (R.Read j s).1 = some v ∧
        (probeRegister ws G (traced R) j (s, tr)).dev.2 =
          tr ++ [Op.read j (some v),
                 Op.write j (v % 18446744073709551616 ||| (G.ctlMetrics j).maskRO) true]
             ++ checkCalls1
             ++ [Op.write j (v % 18446744073709551616 &&& not64 (G.ctlMetrics j).maskRO) true]
             ++ checkCalls2 ∧
        (∀ op ∈ checkCalls1 ++ checkCalls2, op.isWrite = false)) ∧
    (∀ v s1 s2, R.Read j s = (some v, s1) →
      R.Write j (v % 18446744073709551616 ||| (G.ctlMetrics j).maskRO) s1 = (true, s2) →
      ((ValidateCtlRegisterROAttribute ws G (traced R) j
          (s2, tr ++ [Op.read j (some v),
            Op.write j (v % 18446744073709551616 ||| (G.ctlMetrics j).maskRO) true])).result
          = .error .exception →
        probeRegister ws G (traced R) j (s, tr) =
          ValidateCtlRegisterROAttribute ws G (traced R) j
            (s2, tr ++ [Op.read j (some v),
              Op.write j (v % 18446744073709551616 ||| (G.ctlMetrics j).maskRO) true])) ∧
      ((ValidateCtlRegisterROAttribute ws G (traced R) j
          (s2, tr ++ [Op.read j (some v),
            Op.write j (v % 18446744073709551616 ||| (G.ctlMetrics j).maskRO) true])).result
          = .ok () →
        ∀ s4, R.Write j (v % 18446744073709551616 &&& not64 (G.ctlMetrics j).maskRO)
            (ValidateCtlRegisterROAttribute ws G (traced R) j
              (s2, tr ++ [Op.read j (some v),
                Op.write j (v % 18446744073709551616 ||| (G.ctlMetrics j).maskRO)
                  true])).dev.1 = (true, s4) →
          (probeRegister ws G (traced R) j (s, tr)).result =
            (ValidateCtlRegisterROAttribute ws G (traced R) j
              (s4, (ValidateCtlRegisterROAttribute ws G (traced R) j
                  (s2, tr ++ [Op.read j (some v),
                    Op.write j (v % 18446744073709551616 ||| (G.ctlMetrics j).maskRO)
                      true])).dev.2
                ++ [Op.write j (v % 18446744073709551616 &&& not64 (G.ctlMetrics j).maskRO)
                      true])).result)) := by
  refine ⟨roBitsLoop_cons_probed ws G (traced R) rev j js (s, tr) happ hres, ?_, ?_⟩
  · intro hok
    cases hr : R.Read j s with
    | mk res s1 =>
      cases res with
      | none =>
        exfalso
        unfold probeRegister at hok
        simp [traced_Read, hr] at hok
      | some v =>
        cases hw : R.Write j (v % 18446744073709551616 ||| (G.ctlMetrics j).maskRO) s1 with
        | mk ok1 s2 =>
          cases ok1 with
          | false =>
            exfalso
            unfold probeRegister at hok
            simp [traced_Read, hr, traced_Write, hw] at hok
          | true =>
            rw [probeRegister_traced_eq ws G R j s s1 s2 tr v hr hw] at hok ⊢
            rw [andThen_result_ok_iff] at hok
            obtain ⟨hc1, hrest⟩ := hok
            rw [andThen_of_ok _ _ hc1]
            obtain ⟨d1, e1, p1⟩ := ValidateCtlRegisterROAttribute_no_write ws G R j
              (s2, tr ++ [Op.read j (some v),
                Op.write j (v % 18446744073709551616 ||| (G.ctlMetrics j).maskRO) true])
            simp only [traced_Write] at hrest ⊢
            cases hw2 : (R.Write j
                (v % 18446744073709551616 &&& not64 (G.ctlMetrics j).maskRO)
                (ValidateCtlRegisterROAttribute ws G (traced R) j
                  (s2, tr ++ [Op.read j (some v),
                    Op.write j (v % 18446744073709551616 ||| (G.ctlMetrics j).maskRO)
                      true])).dev.1).1 with
            | false =>
              exfalso
              rw [hw2] at hrest
              simp at hrest
            | true =>
              simp only [hw2]
              obtain ⟨d2, e2, p2⟩ := ValidateCtlRegisterROAttribute_no_write ws G R j
                ((R.Write j (v % 18446744073709551616 &&& not64 (G.ctlMetrics j).maskRO)
                  (ValidateCtlRegisterROAttribute ws G (traced R) j
                    (s2, tr ++ [Op.read j (some v),
                      Op.write j (v % 18446744073709551616 ||| (G.ctlMetrics j).maskRO)
                        true])).dev.1).2,
                 (ValidateCtlRegisterROAttribute ws G (traced R) j
                    (s2, tr ++ [Op.read j (some v),
                      Op.write j (v % 18446744073709551616 ||| (G.ctlMetrics j).maskRO)
                        true])).dev.2
                  ++ [Op.write j (v % 18446744073709551616 &&& not64 (G.ctlMetrics j).maskRO)
                        true])
              refine ⟨v, d1, d2, rfl, ?_, ?_⟩
              · rw [e2, e1]
              · intro op hop
                rcases List.mem_append.mp hop with h | h
                · exact p1 op h
                · exact p2 op h
  · intro v s1 s2 hr hw
    rw [probeRegister_traced_eq ws G R j s s1 s2 tr v hr hw]
    constructor
    · intro herr
      exact andThen_of_error _ _ herr
    · intro hc1 s4 hw2
      rw [andThen_of_ok _ _ hc1]
      simp only [traced_Write, hw2]

namespace AllCtrlRegs

/-! ## The probe pass register by register -/

/-- The probe pass over a concatenation of register lists is the pass over the first list
followed by the pass over the second one. -/
theorem roBitsLoop_append {σ : Type} (ws : Nat → Nat) (G : RegDefs) (R : Registers σ)
    (rev : Nat) : ∀ (l1 l2 : List Nat) (s : σ),
      roBitsLoop ws G R rev (l1 ++ l2) s =
        (roBitsLoop ws G R rev l1 s).andThen (roBitsLoop ws G R rev l2) := by
  intro l1
  induction l1 with
  | nil =>
    intro l2 s
    simp only [List.nil_append, roBitsLoop]
    rw [skip_andThen]
  | cons j js ih =>
    intro l2 s
    simp only [List.cons_append, roBitsLoop]
    split
    · exact ih l2 s
    · split
      · exact ih l2 s
      · rw [andThen_assoc]
        congr 1
        funext s1
        exact ih l2 s1

/-- The registers `0 .. n - 1` are those below `j`, then `j`, then registers above `j`. -/
theorem range_split (n j : Nat) (h : j < n) :
    ∃ rest, List.range n = List.range j ++ j :: rest ∧ ∀ x ∈ rest, j < x := by
  induction n with
  | zero => omega
  | succ n ih =>
    by_cases e : j = n
    · subst e
      exact ⟨[], by rw [List.range_succ], by simp⟩
    · obtain ⟨rest, hrest, hgt⟩ := ih (by omega)
      refine ⟨rest ++ [n], by rw [List.range_succ, hrest]; simp, ?_⟩
      intro x hx
      rcases List.mem_append.mp hx with hx | hx
      · exact hgt x hx
      · simp only [List.mem_singleton] at hx
        omega

/-- The probes of `j` when the read of `j` fails. -/
theorem probeRegister_read_fails {σ : Type} (ws : Nat → Nat) (G : RegDefs) (R : Registers σ)
    (j : Nat) (s s1 : σ) (tr : List Op) (hr : R.Read j s = (none, s1)) :
    probeRegister ws G (traced R) j (s, tr) =
      ⟨(s1, tr ++ [Op.read j none]), [], .error .exception⟩ := by
  unfold probeRegister
  simp only [traced_Read, hr]

/-- The probes of `j` when the first write fails. -/
theorem probeRegister_first_write_fails {σ : Type} (ws : Nat → Nat) (G : RegDefs)
    (R : Registers σ) (j : Nat) (s s1 s2 : σ) (tr : List Op) (v : Nat)
    (hr : R.Read j s = (some v, s1))
    (hw : R.Write j (v % 18446744073709551616 ||| (G.ctlMetrics j).maskRO) s1 = (false, s2)) :
    probeRegister ws G (traced R) j (s, tr) =
      ⟨(s2, tr ++ [Op.read j (some v),
          Op.write j (v % 18446744073709551616 ||| (G.ctlMetrics j).maskRO) false]), [],
        .error .exception⟩ := by
  unfold probeRegister
  simp only [traced_Read, hr, traced_Write, hw, List.append_assoc, List.singleton_append]

/-- A pass over registers other than `j` adds no read and no write of `j` to the
journal. -/
theorem roBitsLoop_not_touching {σ : Type} (ws : Nat → Nat) (G : RegDefs) (R : Registers σ)
    (rev j : Nat) (js : List Nat) (hne : ∀ x ∈ js, x ≠ j) (st : σ × List Op) :
    OnlyAppends (fun op => op.touches j = false) st.2
      (roBitsLoop ws G (traced R) rev js st).dev.2 := by
  refine (roBitsLoop_appends ws G R rev js st).mono ?_
  rintro op ⟨reg, hmem, _, _, h⟩
  have hreg := hne reg hmem
  rcases h with ⟨res, rfl⟩ | ⟨value, ok, rfl⟩ | ⟨k, res, rfl⟩
  · simpa [Op.touches] using hreg
  · simpa [Op.touches] using hreg
  · rfl

end AllCtrlRegs

namespace AllCtrlRegs

/-! ## What a failed run leaves behind -/

/-- A statement that does nothing is accounted for. -/
theorem accounted_skip {σ : Type} (st : σ × List Op) :
    Accounted (Outcome.mk st [] (.ok ())) :=
  ⟨fun _ => rfl, fun h => by simp at h⟩

/-- A throw right after a transport call that returned `false`, with nothing logged. -/
theorem accounted_transport_failure {σ : Type} (s1 : σ) (tr : List Op) (op : Op)
    (h : op.failed = true) :
    Accounted (Outcome.mk (s1, tr ++ [op]) [] (.error .exception)) :=
  ⟨fun h0 => by simp at h0, fun _ => ⟨op, by simp, Or.inl ⟨h, rfl⟩⟩⟩

/-- A throw right after a successful read, with one line logged. -/
theorem accounted_mismatch {σ : Type} (s1 : σ) (tr : List Op) (op : Op) (e : LogErr)
    (h1 : op.failed = false) (h2 : op.isWrite = false) :
    Accounted (Outcome.mk (s1, tr ++ [op]) [e] (.error .exception)) :=
  ⟨fun h0 => by simp at h0, fun _ => ⟨op, by simp, Or.inr ⟨h1, h2, e, rfl⟩⟩⟩

/-- A sequence of statements that are accounted for is accounted for. -/
theorem accounted_andThen {σ : Type} (o : Outcome (σ × List Op))
    (next : σ × List Op → Outcome (σ × List Op))
    (h1 : Accounted o) (h2 : ∀ st, Accounted (next st)) : Accounted (o.andThen next) := by
  rcases result_ok_or_exception o.result with h | h
  · rw [andThen_of_ok o next h]
    have hlog := h1.1 h
    constructor
    · intro hr
      simp only [hlog, List.nil_append]
      exact (h2 o.dev).1 hr
    · intro hr
      obtain ⟨op, hop, hcase⟩ := (h2 o.dev).2 hr
      refine ⟨op, hop, ?_⟩
      simp only [hlog, List.nil_append]
      exact hcase
  · rw [andThen_of_error o next h]
    exact h1

/-- The chunk loop is accounted for. -/
theorem accounted_wideChunks {σ : Type} (ws : Nat → Nat) (R : Registers σ) (d : CtlSpcType) :
    ∀ (ks : List Nat) (st : σ × List Op), Accounted (wideChunks ws (traced R) d ks st) := by
  intro ks
  induction ks with
  | nil => intro st; exact accounted_skip st
  | cons k ks ih =>
    intro st
    unfold wideChunks
    simp only [traced]
    cases hres : (R.ReadBar01 8 (d.offset + k * 8) st.1).1 with
    | none => exact accounted_transport_failure _ _ _ rfl
    | some value =>
      simp only
      cases hc : checkROValue ws d (value % 18446744073709551616) with
      | some e => exact accounted_mismatch _ _ _ e rfl rfl
      | none => exact ih _

/-- The single-register check is accounted for. -/
theorem accounted_check {σ : Type} (ws : Nat → Nat) (G : RegDefs) (R : Registers σ)
    (reg : Nat) (st : σ × List Op) :
    Accounted (ValidateCtlRegisterROAttribute ws G (traced R) reg st) := by
  unfold ValidateCtlRegisterROAttribute
  split
  · exact accounted_wideChunks ws R _ _ st
  · simp only [traced_Read]
    cases hres : (R.Read reg st.1).1 with
    | none => exact accounted_transport_failure _ _ _ rfl
    | some value =>
      simp only
      cases hc : checkROValue ws (G.ctlMetrics reg) (value % 18446744073709551616) with
      | some e => exact accounted_mismatch _ _ _ e rfl rfl
      | none => exact accounted_skip _

/-- The probes of a register are accounted for. -/
theorem accounted_probe {σ : Type} (ws : Nat → Nat) (G : RegDefs) (R : Registers σ)
    (j : Nat) (st : σ × List Op) : Accounted (probeRegister ws G (traced R) j st) := by
  unfold probeRegister
  simp only [traced_Read]
  cases hres : (R.Read j st.1).1 with
  | none => exact accounted_transport_failure _ _ _ rfl
  | some orig =>
    simp only [traced_Write]
    cases hw : (R.Write j (orig % 18446744073709551616 ||| (G.ctlMetrics j).maskRO)
        (R.Read j st.1).2).1 with
    | false => exact accounted_transport_failure _ _ _ rfl
    | true =>
      simp only
      refine accounted_andThen _ _ (accounted_check ws G R j _) ?_
      intro st3
      cases hw2 : (R.Write j (orig % 18446744073709551616 &&& not64 (G.ctlMetrics j).maskRO)
          st3.1).1 with
      | false => exact accounted_transport_failure _ _ _ rfl
      | true => exact accounted_check ws G R j _

/-- The probe pass is accounted for. -/
theorem accounted_roBitsLoop {σ : Type} (ws : Nat → Nat) (G : RegDefs) (R : Registers σ)
    (rev : Nat) : ∀ (js : List Nat) (st : σ × List Op),
      Accounted (roBitsLoop ws G (traced R) rev js st) := by
  intro js
  induction js with
  | nil => intro st; exact accounted_skip st
  | cons j js ih =>
    intro st
    simp only [roBitsLoop]
    split
    · exact ih st
    · split
      · exact ih st
      · exact accounted_andThen _ _ (accounted_probe ws G R j st) ih

end AllCtrlRegs

/-- C15, as stated, fails: a failed transport read and a compliance mismatch make
`ValidateCtlRegisterROAttribute` throw the same value, and so do a failed transport write
and a compliance mismatch in `ValidateROBitsAfterWriting`; the thrown value does not tell
the causes apart. -/
theorem transport_and_compliance_failures_throw_alike :
    (ValidateCtlRegisterROAttribute (fun _ => 0) sampleDefs failRegisters 0 ()).result
      = (ValidateCtlRegisterROAttribute (fun _ => 0) sampleDefs (constRegisters 513) 0
          ()).result ∧
    (ValidateCtlRegisterROAttribute (fun _ => 0) sampleDefs (traced failRegisters) 0
        ((), [])).dev.2 = [Op.read 0 none] ∧
    (ValidateCtlRegisterROAttribute (fun _ => 0) sampleDefs (traced (constRegisters 513)) 0
        ((), [])).dev.2 = [Op.read 0 (some 513)] ∧
    (ValidateROBitsAfterWriting (fun _ => 0) pairDefs (writeFailRegisters 512) 1 ()).result
      = (ValidateROBitsAfterWriting (fun _ => 0) pairDefs writableDevice 1
          (fun _ => 512)).result ∧
    (ValidateROBitsAfterWriting (fun _ => 0) pairDefs (traced (writeFailRegisters 512)) 1
        ((), [])).dev.2 = [Op.read 0 (some 512), Op.write 0 4294967295 false] ∧
    (ValidateROBitsAfterWriting (fun _ => 0) pairDefs (traced writableDevice) 1
        (fun _ => 512, [])).dev.2
      = [Op.read 0 (some 512), Op.write 0 4294967295 true, Op.read 0 (some 4294967295)] :=
  ⟨rfl, rfl, rfl, rfl, rfl, rfl⟩

/-- C15, amended: every failing run of `ValidateCtlRegisterROAttribute` and of
`ValidateROBitsAfterWriting` throws the same bare `exception()`; the cause shows in the
error log only: either the last transport call returned `false` and nothing was logged,
or the last transport call was a successful read and exactly one `LOG_ERR` line was
written. -/
theorem failure_cause_shows_in_log_only {σ : Type} (ws : Nat → Nat) (G : RegDefs)
    (R : Registers σ) (rev reg : Nat) (s : σ) (tr : List Op) :
    ((ValidateCtlRegisterROAttribute ws G (traced R) reg (s, tr)).result ≠ .ok () →
      (ValidateCtlRegisterROAttribute ws G (traced R) reg (s, tr)).result = .error .exception ∧
      FailureExplained (ValidateCtlRegisterROAttribute ws G (traced R) reg (s, tr))) ∧
    ((ValidateROBitsAfterWriting ws G (traced R) rev (s, tr)).result ≠ .ok () →
      (ValidateROBitsAfterWriting ws G (traced R) rev (s, tr)).result = .error .exception ∧
      FailureExplained (ValidateROBitsAfterWriting ws G (traced R) rev (s, tr))) := by
  constructor
  · intro h
    rcases result_ok_or_exception
      (ValidateCtlRegisterROAttribute ws G (traced R) reg (s, tr)).result with h1 | h1
    · exact absurd h1 h
    · exact ⟨h1, (accounted_check ws G R reg (s, tr)).2 h1⟩
  · intro h
    rcases result_ok_or_exception
      (ValidateROBitsAfterWriting ws G (traced R) rev (s, tr)).result with h1 | h1
    · exact absurd h1 h
    · exact ⟨h1, (accounted_roBitsLoop ws G R rev _ (s, tr)).2 h1⟩

/-- C15, amended, for a failed read and for a probe pass that meets a writable read-only
bit. -/
theorem failure_cause_shows_in_log_only_witness :
    ((ValidateCtlRegisterROAttribute (fun _ => 0) sampleDefs (traced failRegisters) 0
        ((), [])).result = .error .exception ∧
      FailureExplained (ValidateCtlRegisterROAttribute (fun _ => 0) sampleDefs
        (traced failRegisters) 0 ((), []))) ∧
    ((ValidateROBitsAfterWriting (fun _ => 0) pairDefs (traced writableDevice) 1
        (fun _ => 512, [])).result = .error .exception ∧
      FailureExplained (ValidateROBitsAfterWriting (fun _ => 0) pairDefs
        (traced writableDevice) 1 (fun _ => 512, []))) :=
  ⟨(failure_cause_shows_in_log_only (fun _ => 0) sampleDefs failRegisters 1 0 () []).1
      (fun h => by
        have h2 : (Except.error Thrown.exception : Except Thrown Unit) = .ok () := h
        cases h2),
   (failure_cause_shows_in_log_only (fun _ => 0) pairDefs writableDevice 1 0
      (fun _ => 512) []).2
      (fun h => by
        have h2 : (Except.error Thrown.exception : Except Thrown Unit) = .ok () := h
        cases h2)⟩

/-- C12: seen from a register `j < CTLSPC_FENCE` whose `specRev` is the active revision and
which is not reserved, the whole pass `ValidateROBitsAfterWriting` on a journalled
transport runs as follows.  The pass over the registers below `j` adds no read and no
write of `j` to the journal, and if it throws, that is the outcome of the whole pass.
Otherwise the pass reaches `j` and calls, in this order: a read of `j` yielding `v`; a
write of `v | maskRO` to `j`; the single-register check (which adds reads only); a write
of `v & ~maskRO` to `j`; the check again.  A read or write that returns `false` and a
check that throws end the whole pass on the spot, with the journal ending in that call
or check.  When both checks have passed, the rest of the pass adds no read and no write
of `j`. -/
theorem probe_pass_order_at_each_register {σ : Type} (ws : Nat → Nat) (G : RegDefs)
    (R : Registers σ) (rev j : Nat) (s : σ) (tr : List Op)
    (hj : j < G.CTLSPC_FENCE) (happ : (G.ctlMetrics j).specRev = rev)
    (hres : j ≠ G.CTLSPC_RES1 ∧ j ≠ G.CTLSPC_RES2 ∧ j ≠ G.CTLSPC_RES3)
    (whole reached : Outcome (σ × List Op))
    (hwhole : whole = ValidateROBitsAfterWriting ws G (traced R) rev (s, tr))
    (hreached : reached = roBitsLoop ws G (traced R) rev (List.range j) (s, tr)) :
    OnlyAppends (fun op => op.touches j = false) tr reached.dev.2 ∧
    (∀ st, OnlyAppends (fun op => op.isWrite = false) st.2
      (ValidateCtlRegisterROAttribute ws G (traced R) j st).dev.2) ∧
    (reached.result = .error .exception → whole = reached) ∧
    (reached.result = .ok () →
      (∀ s1, R.Read j reached.dev.1 = (none, s1) →
        whole.result = .error .exception ∧
        whole.dev = (s1, reached.dev.2 ++ [Op.read j none])) ∧
      (∀ v s1, R.Read j reached.dev.1 = (some v, s1) →
        (∀ s2, R.Write j (v % 18446744073709551616 ||| (G.ctlMetrics j).maskRO) s1
            = (false, s2) →
          whole.result = .error .exception ∧
          whole.dev = (s2, reached.dev.2 ++ [Op.read j (some v),
            Op.write j (v % 18446744073709551616 ||| (G.ctlMetrics j).maskRO) false])) ∧
        (∀ s2 check1, R.Write j (v % 18446744073709551616 ||| (G.ctlMetrics j).maskRO) s1
            = (true, s2) →
          check1 = ValidateCtlRegisterROAttribute ws G (traced R) j
            (s2, reached.dev.2 ++ [Op.read j (some v),
              Op.write j (v % 18446744073709551616 ||| (G.ctlMetrics j).maskRO) true]) →
          (check1.result = .error .exception →
            whole.result = .error .exception ∧ whole.dev = check1.dev ∧
            whole.errLog = check1.errLog) ∧
          (check1.result = .ok () →
            (∀ s4, R.Write j (v % 18446744073709551616 &&& not64 (G.ctlMetrics j).maskRO)
                check1.dev.1 = (false, s4) →
              whole.result = .error .exception ∧
              whole.dev = (s4, check1.dev.2 ++
                [Op.write j (v % 18446744073709551616 &&& not64 (G.ctlMetrics j).maskRO)
                  false])) ∧
            (∀ s4 check2,
              R.Write j (v % 18446744073709551616 &&& not64 (G.ctlMetrics j).maskRO)
                check1.dev.1 = (true, s4) →
              check2 = ValidateCtlRegisterROAttribute ws G (traced R) j
                (s4, check1.dev.2 ++
                  [Op.write j (v % 18446744073709551616 &&& not64 (G.ctlMetrics j).maskRO)
                    true]) →
              (check2.result = .error .exception →
                whole.result = .error .exception ∧ whole.dev = check2.dev ∧
                whole.errLog = check2.errLog) ∧
              (check2.result = .ok () →
                OnlyAppends (fun op => op.touches j = false) check2.dev.2 whole.dev.2)))))) := by
  subst hwhole hreached
  obtain ⟨rest, hrest, hgt⟩ := range_split G.CTLSPC_FENCE j hj
  have hsplit : ValidateROBitsAfterWriting ws G (traced R) rev (s, tr) =
      (roBitsLoop ws G (traced R) rev (List.range j) (s, tr)).andThen fun st1 =>
        (probeRegister ws G (traced R) j st1).andThen
          (roBitsLoop ws G (traced R) rev rest) := by
    unfold ValidateROBitsAfterWriting
    rw [hrest, roBitsLoop_append]
    congr 1
    funext st1
    exact roBitsLoop_cons_probed ws G (traced R) rev j rest st1 happ hres
  refine ⟨roBitsLoop_not_touching ws G R rev j (List.range j)
      (fun x hx => by have := List.mem_range.mp hx; omega) (s, tr),
    ValidateCtlRegisterROAttribute_no_write ws G R j, ?_, ?_⟩
  · intro herr
    rw [hsplit]
    exact andThen_of_error _ _ herr
  · intro hok
    have hlog : (roBitsLoop ws G (traced R) rev (List.range j) (s, tr)).errLog = [] :=
      (accounted_roBitsLoop ws G R rev _ (s, tr)).1 hok
    rw [hsplit, andThen_of_ok _ _ hok]
    simp only [hlog, List.nil_append]
    rcases (roBitsLoop ws G (traced R) rev (List.range j) (s, tr)).dev with ⟨sB, trB⟩
    simp only
    constructor
    · intro s1 hr
      rw [probeRegister_read_fails ws G R j sB s1 trB hr, andThen_of_error _ _ rfl]
      exact ⟨rfl, rfl⟩
    · intro v s1 hr
      constructor
      · intro s2 hw
        rw [probeRegister_first_write_fails ws G R j sB s1 s2 trB v hr hw,
          andThen_of_error _ _ rfl]
        exact ⟨rfl, rfl⟩
      · intro s2 check1 hw hc1
        rw [probeRegister_traced_eq ws G R j sB s1 s2 trB v hr hw, ← hc1]
        constructor
        · intro herr
          rw [andThen_of_error check1 _ herr, andThen_of_error check1 _ herr]
          exact ⟨herr, rfl, rfl⟩
        · intro hok1
          have hlog1 : check1.errLog = [] := by
            rw [hc1] at hok1 ⊢
            exact (accounted_check ws G R j _).1 hok1
          rw [andThen_of_ok check1 _ hok1]
          simp only [traced_Write, hlog1, List.nil_append]
          constructor
          · intro s4 hw2
            simp only [hw2]
            rw [andThen_of_error _ _ rfl]
            exact ⟨rfl, rfl⟩
          · intro s4 check2 hw2 hc2
            simp only [hw2, ← hc2]
            constructor
            · intro herr2
              rw [andThen_of_error _ _ herr2]
              exact ⟨herr2, rfl, rfl⟩
            · intro hok2
              rw [andThen_of_ok _ _ hok2]
              exact roBitsLoop_not_touching ws G R rev j rest
                (fun x hx => by have := hgt x hx; omega) check2.dev

/-- C12, on a table of two registers (register `1` is reserved), for register `0`.  On
the compliant device holding `0x00000200` the whole pass calls: read `0x200`, write
`0x200 | 0xFFFFFFFF`, check, write `0x200 & ~0xFFFFFFFF`, check.  On a device that stores
whatever is written the first check throws, and the pass ends with it. -/
theorem probe_pass_order_at_each_register_witness :
    (ValidateROBitsAfterWriting (fun _ => 0) pairDefs (traced (compliantDevice pairDefs)) 1
        (fun _ => 512, [])).dev.2
      = [Op.read 0 (some 512), Op.write 0 4294967295 true, Op.read 0 (some 512),
          Op.write 0 0 true, Op.read 0 (some 512)] ∧
    (ValidateROBitsAfterWriting (fun _ => 0) pairDefs (traced writableDevice) 1
        (fun _ => 512, [])).result = .error .exception ∧
    (ValidateROBitsAfterWriting (fun _ => 0) pairDefs (traced writableDevice) 1
        (fun _ => 512, [])).dev.2
      = [Op.read 0 (some 512), Op.write 0 4294967295 true, Op.read 0 (some 4294967295)] ∧
    (ValidateROBitsAfterWriting (fun _ => 0) pairDefs (traced writableDevice) 1
        (fun _ => 512, [])).errLog = [⟨"REG", 0⟩] := by
  have h := ((((probe_pass_order_at_each_register (fun _ => 0) pairDefs writableDevice 1 0
    (fun _ => 512) [] (by decide) (by decide) (by decide) _ _ rfl rfl).2.2.2 rfl).2
    512 _ rfl).2 _ _ rfl rfl).1 rfl
  exact ⟨rfl, h.1, by rw [h.2.1]; rfl, by rw [h.2.2]; rfl⟩

